import Mathlib

/-!
Verification of the frame-level extraction pipeline of `moseq2-extract`
(`moseq2_extract/extract/proc.py`) against its natural-language specification.

Numeric values computed by the Python code (float64) are embedded as exact
rationals `ℚ`; the IEEE NaN sentinel used throughout the source for "missing"
is embedded as `none : Option ℚ`, with arithmetic that propagates `none` and
comparisons that are false on `none` — exactly the NaN semantics the source
relies on.  External library routines (OpenCV, scikit-image, scipy, the
learned flip classifier) are not part of the repository; they enter the
embedding either as explicit function parameters or as contracts
(hypotheses) stating the documented behaviour the source depends on.

The standard `ℚ` arithmetic of Batteries is `@[irreducible]`, so the
embedding computes through kernel-reducible wrappers (`qadd`, `qsub`, …)
proved equal to the ordinary field operations; concrete evaluations can then
go through `decide` while abstract theorems rewrite to ordinary arithmetic.
-/

namespace Moseq

/-! ## Kernel-reducible rational arithmetic -/

/-- Reducible addition on `ℚ` (equal to `+` by `Rat.add_def'`). -/
def qadd (a b : ℚ) : ℚ := mkRat (a.num * b.den + b.num * a.den) (a.den * b.den)

/-- Reducible subtraction on `ℚ`. -/
def qsub (a b : ℚ) : ℚ := mkRat (a.num * b.den - b.num * a.den) (a.den * b.den)

/-- Reducible multiplication on `ℚ`. -/
def qmul (a b : ℚ) : ℚ := mkRat (a.num * b.num) (a.den * b.den)

/-- Reducible inverse on `ℚ`. -/
def qinv (a : ℚ) : ℚ := Rat.divInt a.den a.num

/-- Reducible division on `ℚ`. -/
def qdiv (a b : ℚ) : ℚ := qmul a (qinv b)

/-- Reducible absolute value on `ℚ`. -/
def qabs (a : ℚ) : ℚ := if a.num < 0 then -a else a

@[simp] theorem qadd_eq (a b : ℚ) : qadd a b = a + b := (Rat.add_def' a b).symm

@[simp] theorem qsub_eq (a b : ℚ) : qsub a b = a - b := (Rat.sub_def' a b).symm

@[simp] theorem qmul_eq (a b : ℚ) : qmul a b = a * b := by
  rw [Rat.mul_def, Rat.normalize_eq_mkRat, qmul]

@[simp] theorem qinv_eq (a : ℚ) : qinv a = a⁻¹ := by
  show _ = a.inv
  rw [Rat.inv_def]
  rfl

@[simp] theorem qdiv_eq (a b : ℚ) : qdiv a b = a / b := by
  rw [qdiv, qmul_eq, qinv_eq, div_eq_mul_inv]

@[simp] theorem qabs_eq (a : ℚ) : qabs a = |a| := by
  rw [qabs]
  rcases lt_or_le a.num 0 with h | h
  · rw [if_pos h, abs_of_neg (by exact_mod_cast Rat.num_neg.mp h)]
  · rw [if_neg (not_lt.mpr h), abs_of_nonneg (by exact_mod_cast Rat.num_nonneg.mp h)]

/-! ## NaN-propagating rational arithmetic (IEEE float semantics used by numpy) -/

/-- Subtraction with NaN propagation (`none` is NaN). -/
def osub : Option ℚ → Option ℚ → Option ℚ
  | some a, some b => some (qsub a b)
  | _, _ => none

/-- Addition with NaN propagation. -/
def oadd : Option ℚ → Option ℚ → Option ℚ
  | some a, some b => some (qadd a b)
  | _, _ => none

/-- Multiplication with NaN propagation.  (numpy: `0 * nan = nan`.) -/
def omul : Option ℚ → Option ℚ → Option ℚ
  | some a, some b => some (qmul a b)
  | _, _ => none

/-- Absolute value with NaN propagation. -/
def oabs (a : Option ℚ) : Option ℚ := a.map qabs

/-- Squaring with NaN propagation. -/
def osq (a : Option ℚ) : Option ℚ := omul a a

/-- Strict comparison `b < a`; any comparison against NaN is false in IEEE
arithmetic, hence `false` when either side is `none`. -/
def ogt : Option ℚ → Option ℚ → Bool
  | some a, some b => decide (b < a)
  | _, _ => false

/-! ## Sorting and `np.nanmedian` -/

/-- Insert into a sorted list (ascending). -/
def insertSorted (x : ℚ) : List ℚ → List ℚ
  | [] => [x]
  | y :: ys => if x ≤ y then x :: y :: ys else y :: insertSorted x ys

/-- Insertion sort, ascending. -/
def sortRat (l : List ℚ) : List ℚ := l.foldr insertSorted []

/-- `np.nanmedian`: drop the NaNs, sort, take the middle element (odd count)
or the mean of the two middle elements (even count); all-NaN input yields
NaN. -/
def nanmedian (l : List (Option ℚ)) : Option ℚ :=
  let xs := sortRat (l.filterMap id)
  let n := xs.length
  if n = 0 then none
  else if n % 2 = 1 then some (xs.getD (n / 2) 0)
  else some (qdiv (qadd (xs.getD (n / 2 - 1) 0) (xs.getD (n / 2) 0)) 2)

/-! ## `feature_hampel_filter` (proc.py lines 927–970)

The source filters a channel by: padding with `span // 2` NaNs on each side
(`np.pad` with `constant_values = np.nan`), taking all length-`span` sliding
windows (`strided_app(padded, span, 1)`), computing the per-window
`np.nanmedian` (`med`) and the nan-median absolute deviation (`mad`), and
replacing sample `i` with `med[i]` whenever
`|x_i − med_i| > med_i + sig * mad_i` (that is the literal source
expression `vals > med + centroid_hampel_sig * mad`). -/

/-- `strided_app(l, w, 1)`: all contiguous windows of width `w`. -/
def strided_app (l : List (Option ℚ)) (w : ℕ) : List (List (Option ℚ)) :=
  (List.range (l.length + 1 - w)).map (fun i => (l.drop i).take w)

/-- The NaN-padded signal used for the sliding windows. -/
def hampelPadded (xs : List (Option ℚ)) (span : ℕ) : List (Option ℚ) :=
  List.replicate (span / 2) (none : Option ℚ) ++ xs ++
    List.replicate (span / 2) (none : Option ℚ)

/-- Per-window sliding medians (`med` in the source). -/
def hampelMeds (xs : List (Option ℚ)) (span : ℕ) : List (Option ℚ) :=
  (strided_app (hampelPadded xs span) span).map nanmedian

/-- Per-window median absolute deviations (`mad` in the source). -/
def hampelMads (xs : List (Option ℚ)) (span : ℕ) : List (Option ℚ) :=
  ((strided_app (hampelPadded xs span) span).zip (hampelMeds xs span)).map
    (fun vm => nanmedian (vm.1.map (fun v => oabs (osub v vm.2))))

/-- One channel of the source's Hampel stage: replace `x_i` by `med_i`
exactly when `|x_i − med_i| > med_i + sig * mad_i` (the source's literal
threshold, `vals > med + sig * mad`). -/
def hampelChannel (xs : List (Option ℚ)) (span : ℕ) (sig : ℚ) :
    List (Option ℚ) :=
  let med := hampelMeds xs span
  let mad := hampelMads xs span
  (List.range xs.length).map (fun i =>
    let m := med.getD i none
    let d := mad.getD i none
    let x := xs.getD i none
    if ogt (oabs (osub x m)) (oadd m (omul (some sig) d)) then m else x)

/-- Per-frame tracking features (the `features` dict produced by
`get_frame_features`): centroid x/y, orientation, and the two axis lengths;
`none` is the NaN "no detection" sentinel. -/
structure TrackFeatures where
  centroidX : List (Option ℚ)
  centroidY : List (Option ℚ)
  orientation : List (Option ℚ)
  axisLenA : List (Option ℚ)
  axisLenB : List (Option ℚ)
deriving Repr, DecidableEq

/-- `feature_hampel_filter` (proc.py 927–970).  Faithful control flow:

* the centroid branch runs only when `centroid_hampel_span` is a positive
  int, and its loop is `for i in range(1)`, so only column 0 (the x
  coordinate) is ever filtered;
* line 959 (`np.pad(features['orientation'], (angle_hampel_span // 2, …))`)
  sits inside the centroid branch, so when that branch runs with
  `angle_hampel_span = None` Python raises `TypeError` (`None // 2`), and a
  negative span gives `np.pad` a negative width (`ValueError`);
* when the centroid branch is skipped, the angle branch reads
  `padded_orientation`, a name that was never bound, raising `NameError`.

Exceptions are embedded as `Except.error`. -/
def feature_hampel_filter (f : TrackFeatures) (centroidSpan : Option ℤ)
    (centroidSig : ℚ) (angleSpan : Option ℤ) (angleSig : ℚ) :
    Except String TrackFeatures :=
  let cActive := match centroidSpan with
    | some s => decide (0 < s)
    | none => false
  let aActive := match angleSpan with
    | some s => decide (0 < s)
    | none => false
  if cActive then
    let f1 := { f with
      centroidX := hampelChannel f.centroidX (centroidSpan.getD 0).toNat centroidSig }
    match angleSpan with
    | none => Except.error "TypeError: unsupported operand type for floordiv: NoneType"
    | some s =>
      if s < 0 then Except.error "ValueError: index can not contain negative values"
      else if aActive then
        Except.ok { f1 with
          orientation := hampelChannel f1.orientation s.toNat angleSig }
      else Except.ok f1
  else
    if aActive then
      Except.error "NameError: name padded_orientation is not defined"
    else Except.ok f

/-- Constant centroid-x signal with one injected outlier (`14` against a
background of `10`), the concrete input on which the source's Hampel stage
fails to act. -/
def hampelBugInput : TrackFeatures :=
  { centroidX := [some 10, some 10, some 14, some 10, some 10]
    centroidY := [some 0, some 0, some 0, some 0, some 0]
    orientation := [some 0, some 0, some 0, some 0, some 0]
    axisLenA := [some 1, some 1, some 1, some 1, some 1]
    axisLenB := [some 1, some 1, some 1, some 1, some 1] }

/-- C1. The source's outlier test is `|x − med| > med + sig * mad`, not the
Hampel test `|x − med| > sig * mad` (the window median is added to the
threshold), and only the centroid x column is filtered (`for i in
range(1)`).  On a constant signal `10` with an injected outlier `14`
(span 5, sig 3) every window median is `10` and every window MAD is `0`, so
the outlier deviates by `4 > sig * MAD = 0` and a Hampel filter must replace
it with the local median — yet the source leaves the whole dict unchanged,
because `4 > 10 + 3·0` is false. -/
theorem hampel_filter_threshold_code_bug :
    feature_hampel_filter hampelBugInput (some 5) 3 (some 0) 3 =
      Except.ok hampelBugInput ∧
    hampelMeds hampelBugInput.centroidX 5 = List.replicate 5 (some 10) ∧
    hampelMads hampelBugInput.centroidX 5 = List.replicate 5 (some 0) ∧
    oabs (osub (hampelBugInput.centroidX.getD 2 none) (some 10)) = some 4 ∧
    (3 * 0 : ℚ) < 4 := by
  refine ⟨by rfl, by decide, by decide, by decide, by norm_num⟩

/-- C7. With `centroid_hampel_span` unset and a positive
`angle_hampel_span`, the angle branch reads `padded_orientation`, which is
only ever assigned inside the (skipped) centroid branch: the call raises
`NameError` instead of filtering the orientation channel and leaving the
centroid untouched. -/
theorem hampel_filter_angle_only_name_error :
    feature_hampel_filter hampelBugInput none 3 (some 5) 3 =
      Except.error "NameError: name padded_orientation is not defined" := by
  rfl

/-! ## `get_flips` (proc.py lines 32–73)

The classifier is an external collaborator (`joblib` random forest); it is
embedded as a record carrying its declared class labels (`clf.classes_`),
its expected input dimensionality (`clf.n_features_`) and its probability
function.  `predict_proba` raises `ValueError` when the flattened patch
size does not match `n_features_`; the source catches this, prints the
required patch size, and substitutes the default output
`np.array([[0]*len(frames), [1]*len(frames)]).T`, i.e. one `[0, 1]` row per
frame, commented "default output; indicating no flips". -/

/-- External flip classifier (spec §4.9: a polymorphic capability exposing
`predict_proba` and a declared expected input dimensionality). -/
structure FlipClassifier where
  classes : List ℤ
  nFeatures : ℕ
  predictProba : List (List ℚ) → List (List ℚ)

/-- `np.argmax` over a probability row: index of the first maximum. -/
def npArgmaxAux : List ℚ → ℕ → ℕ → ℚ → ℕ
  | [], _, best, _ => best
  | x :: xs, i, best, bv =>
    if bv < x then npArgmaxAux xs (i + 1) i x else npArgmaxAux xs (i + 1) best bv

/-- `np.argmax` of a nonempty rational list (first index attaining the
maximum). -/
def npArgmax : List ℚ → ℕ
  | [] => 0
  | x :: xs => npArgmaxAux xs 1 0 x

/-- Plain median of a rational list (nonempty in all uses). -/
def medianQ (l : List ℚ) : ℚ := (nanmedian (l.map some)).getD 0

/-- `scipy.signal.medfilt` with an odd kernel `k`: sliding median over the
zero-padded signal. -/
def medfilt1 (xs : List ℚ) (k : ℕ) : List ℚ :=
  let pad := List.replicate (k / 2) (0 : ℚ)
  let padded := pad ++ xs ++ pad
  (List.range xs.length).map (fun i => medianQ ((padded.drop i).take k))

/-- Transpose of a rectangular rational matrix (rows of equal length). -/
def transposeQ (m : List (List ℚ)) : List (List ℚ) :=
  (List.range (m.headD []).length).map (fun j => m.map (fun row => row.getD j 0))

/-- Median-filter every column of `probas` (the source's
`probas[:, i] = scipy.signal.medfilt(probas[:, i], smoothing)`). -/
def medfiltCols (m : List (List ℚ)) (k : ℕ) : List (List ℚ) :=
  transposeQ ((transposeQ m).map (fun col => medfilt1 col k))

/-- `get_flips` (proc.py 32–73).  `flip_class` is
`np.where(clf.classes_ == 1)[0]` (for a binary classifier with classes
`[0, 1]` this is index 1); on an input-shape mismatch `predict_proba`
raises `ValueError`, which the source replaces with one `[0, 1]` row per
frame; finally `flips = probas.argmax(axis=1) == flip_class`. -/
def get_flips (clf : FlipClassifier) (frames : List (List (List ℚ)))
    (smoothing : Option ℕ) : List Bool :=
  let flipClass :=
    ((List.range clf.classes.length).filter
      (fun i => clf.classes.getD i 0 = 1)).headD 0
  let n := frames.length
  let r := (frames.headD []).length
  let c := ((frames.headD []).headD []).length
  let probas := if r * c ≠ clf.nFeatures then List.replicate n [(0 : ℚ), 1]
    else clf.predictProba (frames.map List.flatten)
  let probas := match smoothing with
    | some k => if k ≠ 0 then medfiltCols probas k else probas
    | none => probas
  probas.map (fun row => npArgmax row == flipClass)

/-- A classifier whose expected input dimensionality (100) does not match
the 3×3 patches below; its classes are the standard sklearn-sorted `[0, 1]`. -/
def mismatchClf : FlipClassifier :=
  { classes := [0, 1], nFeatures := 100, predictProba := fun _ => [] }

/-- Two 3×3 zero patches: flattened size 9 ≠ 100. -/
def mismatchFrames : List (List (List ℚ)) :=
  List.replicate 2 (List.replicate 3 (List.replicate 3 0))

/-- C2. On a crop-size mismatch the source does not raise — but its default
`probas` rows are `[0, 1]`, whose argmax is column 1, and for sklearn
classes `[0, 1]` the flip class is index 1 as well: every frame is marked
as FLIPPED (`[true, true]`), the exact opposite of the claimed (and
comment-documented, "indicating no flips" / "The extracted data will NOT be
flipped!") all-`False` output. -/
theorem get_flips_mismatch_marks_all_flipped :
    get_flips mismatchClf mismatchFrames none = [true, true] := by
  rfl

/-! ## `get_floor_ellipse` threshold-backoff loop (proc.py lines 296–338)

The source calls `hough_ellipse(edges, accuracy=20, threshold=250, …)` and
then runs

  thresh = 250
  while len(result) == 0:
      thresh -= 50
      result = hough_ellipse(edges, accuracy=20, threshold=thresh, …)

`hough_ellipse` (scikit-image, external) is embedded as a function from the
threshold to the number of candidate ellipses it returns for the fixed edge
image; the while loop is embedded as fuel-indexed iteration, where
exhausting any finite fuel without exiting means the Python loop never
terminates. -/

/-- The threshold-backoff loop: try `thresh`; if the candidate count is
zero, retry at `thresh − 50`.  Returns the threshold at which the loop
exited, or `none` if it is still running after `fuel` iterations. -/
def houghLoopFuel (houghCount : ℤ → ℕ) (thresh : ℤ) : ℕ → Option ℤ
  | 0 => none
  | Nat.succ fuel =>
    if houghCount thresh = 0 then houghLoopFuel houghCount (thresh - 50) fuel
    else some thresh

/-- Helper: on an edge image with no candidate ellipse at any threshold the
loop never exits, whatever the starting threshold. -/
theorem houghLoopFuel_const_zero (fuel : ℕ) :
    ∀ t : ℤ, houghLoopFuel (fun _ => 0) t fuel = none := by
  induction fuel with
  | zero => intro t; rfl
  | succ n ih => intro t; simpa [houghLoopFuel] using ih (t - 50)

/-- C4. The Hough-ellipse retry loop of `get_floor_ellipse` has no retry
bound and no failure signal: on an input whose Canny edge image yields no
candidate ellipse at any threshold (e.g. a blank floor mask — the
accumulator is empty, so every threshold filters it to the empty list), the
loop `while len(result) == 0: thresh -= 50` never exits — after any finite
number of iterations it is still running, and no explicit failure is ever
reported to the caller. -/
theorem get_floor_ellipse_retry_unbounded :
    ∀ fuel : ℕ, houghLoopFuel (fun _ => 0) 250 fuel = none := by
  intro fuel
  exact houghLoopFuel_const_zero fuel 250


/-! ## `clean_frames` (proc.py lines 612–657)

The four filters (erosion, spatial median blur, morphological opening,
temporal median) are OpenCV/scipy routines — external collaborators passed
in as functions.  Before any filtering the source executes
`filtered_frames = frames.copy().astype(frame_dtype)`; with the default
`frame_dtype='uint8'` this truncates every sample to its low byte, embedded
as reduction mod `dtypeMod` (256 for uint8, 65536 for uint16). -/

/-- `clean_frames` (proc.py 612–657).  Guard structure of the source:
erosion runs iff `iters_min is not None and iters_min > 0`; the median blur
iff `prefilter_space is not None and np.all(np.array(prefilter_space) > 0)`
(note `np.all([])` is true); the opening iff
`iters_tail is not None and iters_tail > 0`; the temporal filter iff
`prefilter_time is not None` and all its entries are positive. -/
def clean_frames (erodeF : List (List ℕ) → ℕ → List (List ℕ))
    (medianBlurF : List (List ℕ) → ℕ → List (List ℕ))
    (openF : List (List ℕ) → ℕ → List (List ℕ))
    (tMedF : List (List (List ℕ)) → ℕ → List (List (List ℕ)))
    (frames : List (List (List ℕ)))
    (prefilterSpace : Option (List ℕ)) (prefilterTime : Option (List ℕ))
    (itersTail : Option ℕ) (itersMin : Option ℕ) (dtypeMod : ℕ) :
    List (List (List ℕ)) :=
  let casted := frames.map (fun fr => fr.map (fun row => row.map (· % dtypeMod)))
  let perFrame := casted.map (fun fr =>
    let fr1 := match itersMin with
      | some it => if 0 < it then erodeF fr it else fr
      | none => fr
    let fr2 := match prefilterSpace with
      | some ks => if ks.all (0 < ·) then ks.foldl medianBlurF fr1 else fr1
      | none => fr1
    match itersTail with
      | some it => if 0 < it then openF fr2 it else fr2
      | none => fr2)
  match prefilterTime with
  | some ks => if ks.all (0 < ·) then ks.foldl tMedF perFrame else perFrame
  | none => perFrame

/-- Stand-in for the external 2-D filters in calls where every filter is
disabled (the value is never used). -/
def unusedFilter2 : List (List ℕ) → ℕ → List (List ℕ) := fun f _ => f

/-- Stand-in for the external temporal filter (never used below). -/
def unusedFilter3 : List (List (List ℕ)) → ℕ → List (List (List ℕ)) :=
  fun f _ => f

/-- C8 counterexample.  With every filter disabled, `clean_frames` still
casts to the default `frame_dtype='uint8'`: a one-pixel uint16 depth frame
with value 300 comes back as 300 mod 256 = 44, so the returned batch is not
the input batch. -/
theorem clean_frames_disabled_not_identity :
    clean_frames unusedFilter2 unusedFilter2 unusedFilter2 unusedFilter3
        [[[300]]] none none none none 256 = [[[44]]] ∧
      [[[(44 : ℕ)]]] ≠ [[[300]]] := by
  exact ⟨rfl, by decide⟩

/-- Helper: mapping a function that fixes every element of a list is the
identity. -/
theorem map_fix_eq_self {α : Type} (f : α → α) :
    ∀ (l : List α), (∀ x ∈ l, f x = x) → l.map f = l := by
  intro l
  induction l with
  | nil => intro _; rfl
  | cons a as ih =>
    intro h
    simp only [List.map_cons]
    rw [h a (List.mem_cons_self a as), ih (fun x hx => h x (List.mem_cons_of_mem a hx))]

/-- C8 (amended).  With every filter disabled (`prefilter_space = None`,
`prefilter_time = None`, `iters_tail = None`, `iters_min = None`)
`clean_frames` performs no filtering and no error is raised; the returned
batch equals the input cast to `frame_dtype` — hence it is the identity
exactly on batches whose samples already fit the configured dtype. -/
theorem clean_frames_disabled_identity_of_fits
    (eF mF oF : List (List ℕ) → ℕ → List (List ℕ))
    (tF : List (List (List ℕ)) → ℕ → List (List (List ℕ)))
    (frames : List (List (List ℕ))) (m : ℕ)
    (hfit : ∀ fr ∈ frames, ∀ row ∈ fr, ∀ v ∈ row, v < m) :
    clean_frames eF mF oF tF frames none none none none m = frames := by
  unfold clean_frames
  simp only [List.map_map]
  refine map_fix_eq_self _ frames (fun fr hfr => ?_)
  simp only [Function.comp]
  refine map_fix_eq_self _ fr (fun row hrow => ?_)
  refine map_fix_eq_self _ row (fun v hv => ?_)
  exact Nat.mod_eq_of_lt (hfit fr hfr row hrow v hv)

/-- C8 witness: a uint8-ranged batch is returned unchanged. -/
theorem clean_frames_disabled_identity_witness :
    clean_frames unusedFilter2 unusedFilter2 unusedFilter2 unusedFilter3
      [[[7, 250], [0, 13]]] none none none none 256 = [[[7, 250], [0, 13]]] :=
  clean_frames_disabled_identity_of_fits _ _ _ _ _ 256 (by decide)

/-! ## `get_bbox` (proc.py lines 382–401)

`y, x = np.where(roi > 0)`; `None` when there is no nonzero pixel, else
`[[y.min(), x.min()], [y.max(), x.max()]]`.  `get_roi` (proc.py 516–528)
attaches `get_bbox(roi)` to every ROI mask it returns, so the property is
established for every mask. -/

/-- A pixel of the mask is nonzero (out-of-range reads give the numpy
default 0 and are therefore not nonzero). -/
def nz (roi : List (List ℚ)) (r c : ℕ) : Prop :=
  0 < (roi.getD r []).getD c 0

instance (roi : List (List ℚ)) (r c : ℕ) : Decidable (nz roi r c) := by
  unfold nz
  infer_instance

/-- Row-major enumeration of the nonzero pixels (`np.where(roi > 0)`). -/
def nzPairs (roi : List (List ℚ)) : List (ℕ × ℕ) :=
  (List.range roi.length).flatMap (fun r =>
    (List.range (roi.getD r []).length).filterMap (fun c =>
      if 0 < (roi.getD r []).getD c 0 then some (r, c) else none))

/-- Minimum of a list of naturals (`.min()` of a nonempty index array). -/
def minL : List ℕ → ℕ
  | [] => 0
  | x :: xs => xs.foldl Min.min x

/-- Maximum of a list of naturals (`.max()` of a nonempty index array). -/
def maxL : List ℕ → ℕ
  | [] => 0
  | x :: xs => xs.foldl Max.max x

/-- `get_bbox` (proc.py 382–401): `((ymin, xmin), (ymax, xmax))` of the
nonzero pixels, or `none` for an all-zero mask. -/
def get_bbox (roi : List (List ℚ)) : Option ((ℕ × ℕ) × (ℕ × ℕ)) :=
  if nzPairs roi = [] then none
  else some ((minL ((nzPairs roi).map Prod.fst), minL ((nzPairs roi).map Prod.snd)),
             (maxL ((nzPairs roi).map Prod.fst), maxL ((nzPairs roi).map Prod.snd)))

theorem mem_nzPairs (roi : List (List ℚ)) (r c : ℕ) :
    (r, c) ∈ nzPairs roi ↔ nz roi r c := by
  constructor
  · intro h
    simp only [nzPairs, List.mem_flatMap, List.mem_filterMap, List.mem_range] at h
    obtain ⟨a, _, b, _, hb⟩ := h
    by_cases hz : 0 < (roi.getD a []).getD b 0
    · rw [if_pos hz] at hb
      have hab : a = r ∧ b = c := by
        have := Option.some.inj hb
        exact ⟨congrArg Prod.fst this, congrArg Prod.snd this⟩
      rw [← hab.1, ← hab.2]
      exact hz
    · rw [if_neg hz] at hb
      exact absurd hb (by simp)
  · intro h
    have hr : r < roi.length := by
      by_contra hge
      have hd : roi.getD r [] = [] := List.getD_eq_default _ _ (le_of_not_lt hge)
      rw [nz, hd] at h
      exact absurd h (by simp)
    have hc : c < (roi.getD r []).length := by
      by_contra hge
      have hd : (roi.getD r []).getD c 0 = 0 :=
        List.getD_eq_default _ _ (le_of_not_lt hge)
      rw [nz, hd] at h
      exact absurd h (by simp)
    simp only [nzPairs, List.mem_flatMap, List.mem_filterMap, List.mem_range]
    have h' : 0 < (roi.getD r []).getD c 0 := h
    exact ⟨r, hr, c, hc, by rw [if_pos h']⟩

theorem foldl_min_spec (xs : List ℕ) :
    ∀ x : ℕ, (xs.foldl Min.min x ∈ x :: xs) ∧
      ∀ y ∈ x :: xs, xs.foldl Min.min x ≤ y := by
  induction xs with
  | nil => intro x; exact ⟨List.mem_singleton.mpr rfl, by simp⟩
  | cons a as ih =>
    intro x
    have h := ih (min x a)
    constructor
    · rw [List.foldl_cons]
      rcases List.mem_cons.mp h.1 with h1 | h1
      · rw [h1]
        rcases min_choice x a with hm | hm <;> rw [hm]
        · exact List.mem_cons_self _ _
        · exact List.mem_cons_of_mem _ (List.mem_cons_self _ _)
      · exact List.mem_cons_of_mem _ (List.mem_cons_of_mem _ h1)
    · intro y hy
      rw [List.foldl_cons]
      rcases List.mem_cons.mp hy with rfl | hy1
      · exact le_trans (h.2 _ (List.mem_cons_self _ _)) (min_le_left _ _)
      · rcases List.mem_cons.mp hy1 with rfl | hy2
        · exact le_trans (h.2 _ (List.mem_cons_self _ _)) (min_le_right _ _)
        · exact h.2 _ (List.mem_cons_of_mem _ hy2)

theorem foldl_max_spec (xs : List ℕ) :
    ∀ x : ℕ, (xs.foldl Max.max x ∈ x :: xs) ∧
      ∀ y ∈ x :: xs, y ≤ xs.foldl Max.max x := by
  induction xs with
  | nil => intro x; exact ⟨List.mem_singleton.mpr rfl, by simp⟩
  | cons a as ih =>
    intro x
    have h := ih (max x a)
    constructor
    · rw [List.foldl_cons]
      rcases List.mem_cons.mp h.1 with h1 | h1
      · rw [h1]
        rcases max_choice x a with hm | hm <;> rw [hm]
        · exact List.mem_cons_self _ _
        · exact List.mem_cons_of_mem _ (List.mem_cons_self _ _)
      · exact List.mem_cons_of_mem _ (List.mem_cons_of_mem _ h1)
    · intro y hy
      rw [List.foldl_cons]
      rcases List.mem_cons.mp hy with rfl | hy1
      · exact le_trans (le_max_left _ _) (h.2 _ (List.mem_cons_self _ _))
      · rcases List.mem_cons.mp hy1 with rfl | hy2
        · exact le_trans (le_max_right _ _) (h.2 _ (List.mem_cons_self _ _))
        · exact h.2 _ (List.mem_cons_of_mem _ hy2)

theorem minL_spec (l : List ℕ) (hl : l ≠ []) :
    minL l ∈ l ∧ ∀ y ∈ l, minL l ≤ y := by
  match l with
  | [] => exact absurd rfl hl
  | x :: xs => exact foldl_min_spec xs x

theorem maxL_spec (l : List ℕ) (hl : l ≠ []) :
    maxL l ∈ l ∧ ∀ y ∈ l, y ≤ maxL l := by
  match l with
  | [] => exact absurd rfl hl
  | x :: xs => exact foldl_max_spec xs x

/-- What it means for `get_bbox`'s answer to exactly bound the nonzero
pixels: `none` exactly on all-zero masks, otherwise every nonzero pixel
lies inside the box and each of the four bounds is attained by some
nonzero pixel. -/
def bboxSpec (roi : List (List ℚ)) : Prop :=
  match get_bbox roi with
  | none => ∀ r c, ¬ nz roi r c
  | some ((y0, x0), (y1, x1)) =>
      (∀ r c, nz roi r c → y0 ≤ r ∧ r ≤ y1 ∧ x0 ≤ c ∧ c ≤ x1) ∧
      (∃ c, nz roi y0 c) ∧ (∃ c, nz roi y1 c) ∧
      (∃ r, nz roi r x0) ∧ (∃ r, nz roi r x1)

/-- C9.  For every mask (in particular every ROI mask `get_roi` produces —
it computes `bboxes.append(get_bbox(roi))` for exactly the masks it
returns), the bounding box returned by `get_bbox` exactly bounds the set of
nonzero pixels, and an all-zero mask yields `None`. -/
theorem get_bbox_exactly_bounds (roi : List (List ℚ)) : bboxSpec roi := by
  by_cases h : nzPairs roi = []
  · have hb : get_bbox roi = none := by rw [get_bbox, if_pos h]
    rw [bboxSpec, hb]
    intro r c hnz
    have hmem := (mem_nzPairs roi r c).mpr hnz
    rw [h] at hmem
    exact absurd hmem (List.not_mem_nil _)
  · have hbox : get_bbox roi =
        some ((minL ((nzPairs roi).map Prod.fst), minL ((nzPairs roi).map Prod.snd)),
              (maxL ((nzPairs roi).map Prod.fst), maxL ((nzPairs roi).map Prod.snd))) := by
      rw [get_bbox, if_neg h]
    have hys : ((nzPairs roi).map Prod.fst) ≠ [] := by
      simpa using h
    have hxs : ((nzPairs roi).map Prod.snd) ≠ [] := by
      simpa using h
    rw [bboxSpec, hbox]
    refine ⟨fun r c hnz => ?_, ?_, ?_, ?_, ?_⟩
    · have hmem := (mem_nzPairs roi r c).mpr hnz
      have hy : r ∈ (nzPairs roi).map Prod.fst := List.mem_map_of_mem Prod.fst hmem
      have hx : c ∈ (nzPairs roi).map Prod.snd := List.mem_map_of_mem Prod.snd hmem
      exact ⟨(minL_spec _ hys).2 r hy, (maxL_spec _ hys).2 r hy,
             (minL_spec _ hxs).2 c hx, (maxL_spec _ hxs).2 c hx⟩
    · obtain ⟨⟨a, b⟩, hmem, heq⟩ := List.mem_map.mp (minL_spec _ hys).1
      exact ⟨b, heq ▸ (mem_nzPairs roi a b).mp hmem⟩
    · obtain ⟨⟨a, b⟩, hmem, heq⟩ := List.mem_map.mp (maxL_spec _ hys).1
      exact ⟨b, heq ▸ (mem_nzPairs roi a b).mp hmem⟩
    · obtain ⟨⟨a, b⟩, hmem, heq⟩ := List.mem_map.mp (minL_spec _ hxs).1
      exact ⟨a, heq ▸ (mem_nzPairs roi a b).mp hmem⟩
    · obtain ⟨⟨a, b⟩, hmem, heq⟩ := List.mem_map.mp (maxL_spec _ hxs).1
      exact ⟨a, heq ▸ (mem_nzPairs roi a b).mp hmem⟩

/-! ## `im_moment_features`, `get_frame_features` (proc.py 576–609, 660–774)

Contours, contour areas and image moments come from OpenCV
(`cv2.findContours`, `cv2.contourArea`, `cv2.moments`) — external
collaborators, passed in as functions.  The float `sqrt` and `arctan2`
routines are likewise passed as oracles (their exact values are irrational
and are never needed by the claims; only their NaN-freeness or absence
matters). -/

/-- A contour as returned by `cv2.findContours`: a list of boundary points. -/
def Contour : Type := List (ℕ × ℕ)

/-- The moments record returned by `cv2.moments`. -/
structure Moments where
  m00 : ℚ
  m10 : ℚ
  m01 : ℚ
  mu11 : ℚ
  mu20 : ℚ
  mu02 : ℚ

/-- Features derived from one contour's moments. -/
structure MomentFeatures where
  centroid : Option ℚ × Option ℚ
  orientation : Option ℚ
  axisLen : Option ℚ × Option ℚ

/-- `im_moment_features` (proc.py 576–609): NaN features when `m00 = 0`,
else centroid `(m10/m00, m01/m00)`, orientation
`-.5*arctan2(2*mu11, mu20-mu02)` and axis lengths
`2*sqrt(2)*sqrt((mu20+mu02±common)/m00)` with
`common = sqrt(4*mu11² + (mu20-mu02)²)`. -/
def im_moment_features (sqrtF : ℚ → ℚ) (atan2F : ℚ → ℚ → ℚ)
    (momentsF : Contour → Moments) (c : Contour) : MomentFeatures :=
  let tmp := momentsF c
  let num := qmul 2 tmp.mu11
  let den := qsub tmp.mu20 tmp.mu02
  let common := sqrtF (qadd (qmul 4 (qmul tmp.mu11 tmp.mu11)) (qmul den den))
  if tmp.m00 = 0 then
    { centroid := (none, none), orientation := none, axisLen := (none, none) }
  else
    { centroid := (some (qdiv tmp.m10 tmp.m00), some (qdiv tmp.m01 tmp.m00))
      orientation := some (qmul (qdiv (-1) 2) (atan2F num den))
      axisLen :=
        (some (qmul (qmul 2 (sqrtF 2))
          (sqrtF (qdiv (qadd (qadd tmp.mu20 tmp.mu02) common) tmp.m00))),
         some (qmul (qmul 2 (sqrtF 2))
          (sqrtF (qdiv (qsub (qadd tmp.mu20 tmp.mu02) common) tmp.m00)))) }

/-- A depth frame: rows of rational depth samples. -/
def Frame : Type := List (List ℚ)

/-- Elementwise conjunction of two boolean masks (`np.logical_and`). -/
def andMask (a b : List (List Bool)) : List (List Bool) :=
  List.zipWith (List.zipWith and) a b

/-- `get_frame_features` (proc.py 660–774), typical path (`mask` argument
empty, `remove_obj_from_bg` unset).  Per frame: `frame_mask = frames[i] >
frame_threshold`; if `use_cc`, intersect with the largest connected
component of `frames[i] > mask_threshold` (the `get_largest_cc` composite,
passed in as `ccF`); find external contours of the mask; if there are none
(`tmp.size == 0`) the frame keeps its NaN feature row (`continue`), else
take the contour of maximal area (`tmp.argmax()`) and read its moment
features.  Returns the features dict and the per-frame masks (the source
writes `mask[i] = frame_mask` when no mask was supplied). -/
def get_frame_features (findContoursF : List (List Bool) → List Contour)
    (contourAreaF : Contour → ℚ) (momentsF : Contour → Moments)
    (sqrtF : ℚ → ℚ) (atan2F : ℚ → ℚ → ℚ)
    (ccF : List (List Bool) → List (List Bool))
    (frames : List Frame) (frameThreshold maskThreshold : ℚ) (useCC : Bool) :
    TrackFeatures × List (List (List Bool)) :=
  let rows := frames.map (fun frame =>
    let targetMask :=
      frame.map (fun row => row.map (fun v => decide (frameThreshold < v)))
    let frameMask := if useCC then
        andMask (ccF (frame.map (fun row =>
          row.map (fun v => decide (maskThreshold < v))))) targetMask
      else targetMask
    let cnts := findContoursF frameMask
    let areas := cnts.map contourAreaF
    (match cnts with
     | [] =>
       ({ centroid := (none, none), orientation := none,
          axisLen := (none, none) } : MomentFeatures)
     | c0 :: rest =>
       im_moment_features sqrtF atan2F momentsF
         ((c0 :: rest).getD (npArgmax areas) c0),
     frameMask))
  ({ centroidX := rows.map (fun r => r.1.centroid.1)
     centroidY := rows.map (fun r => r.1.centroid.2)
     orientation := rows.map (fun r => r.1.orientation)
     axisLenA := rows.map (fun r => r.1.axisLen.1)
     axisLenB := rows.map (fun r => r.1.axisLen.2) },
   rows.map Prod.snd)

/-! ## `crop_and_rotate_frames` (proc.py 777–831)

The affine rotation (`cv2.getRotationMatrix2D` + `cv2.warpAffine`) is an
external collaborator `warpF`, applied to the extracted window and the
frame's orientation.  The `int16` cast of `np.arange(...)` truncates each
float toward zero, embedded as `qtrunc` (the cast's 16-bit wrap-around is
not modelled: window indices are bounded by padded frame sizes in every
reachable use). -/

/-- Truncation of a rational toward zero (float-to-int cast). -/
def qtrunc (q : ℚ) : ℤ := q.num / q.den

/-- An all-zero patch of the given crop size. -/
def zeroPatch (cropR cropC : ℕ) : List (List ℚ) :=
  List.replicate cropR (List.replicate cropC (0 : ℚ))

/-- `crop_and_rotate_frames` (proc.py 777–831): frames with a NaN centroid
coordinate are skipped (`continue`), leaving the preallocated all-zero
patch; otherwise the frame is zero-padded
(`cv2.copyMakeBorder(frames[i], crop_size[1], crop_size[1], crop_size[0],
crop_size[0], BORDER_CONSTANT, 0)`), the window rows/columns
`rr = (arange(cy − crop_r//2, cy + crop_c//2 + 1).astype('int16')) + crop_r`
(and `cc` likewise from `cx`) are formed, any out-of-bounds window is also
skipped, and the in-bounds window `use_frame[rr[0]:rr[-1], cc[0]:cc[-1]]`
is rotated by the external `warpF` with the frame's orientation. -/
def crop_and_rotate_frames (warpF : List (List ℚ) → Option ℚ → List (List ℚ))
    (frames : List Frame) (tf : TrackFeatures) (cropR cropC : ℕ) :
    List (List (List ℚ)) :=
  (List.range frames.length).map (fun i =>
    match tf.centroidX.getD i none, tf.centroidY.getD i none with
    | some cx, some cy =>
      let frame : Frame := frames.getD i []
      let width := (frame.headD []).length
      let useFrame : List (List ℚ) :=
        List.replicate cropC (List.replicate (width + 2 * cropR) (0 : ℚ)) ++
        frame.map (fun row =>
          List.replicate cropR (0 : ℚ) ++ row ++ List.replicate cropR (0 : ℚ)) ++
        List.replicate cropC (List.replicate (width + 2 * cropR) (0 : ℚ))
      let win0 := cropR / 2
      let win1 := cropC / 2 + 1
      let rr : List ℤ := (List.range (win0 + win1)).map (fun k =>
        qtrunc (qadd (qsub cy (mkRat win0 1)) (mkRat k 1)) + cropR)
      let cc : List ℤ := (List.range (win0 + win1)).map (fun k =>
        qtrunc (qadd (qsub cx (mkRat win0 1)) (mkRat k 1)) + cropC)
      if rr.any (fun v => (useFrame.length : ℤ) ≤ v) ∨ rr.any (fun v => v < 1) ∨
         cc.any (fun v => ((useFrame.headD []).length : ℤ) ≤ v) ∨
         cc.any (fun v => v < 1) then
        zeroPatch cropR cropC
      else
        let r0 := (rr.headD 0).toNat
        let r1 := (rr.getLastD 0).toNat
        let c0 := (cc.headD 0).toNat
        let c1 := (cc.getLastD 0).toNat
        warpF (((useFrame.drop r0).take (r1 - r0)).map (fun row =>
          (row.drop c0).take (c1 - c0))) (tf.orientation.getD i none)
    | _, _ => zeroPatch cropR cropC)

/-! ## `compute_scalars` (proc.py 834–924)

`convert_pxs_to_mm` lives in `moseq2_extract.util`, which is not among the
provided sources; it is modelled from the spec below.  The velocity
channels are stored as the *squared* magnitude of the finite differences:
the source applies `np.hypot` / `np.sqrt`, whose values are irrational; the
square root is injective on nonnegatives, so equalities (and NaN-ness) of
the stored channel correspond exactly to those of the source's channel. -/

/-- Division with NaN propagation. -/
def odiv : Option ℚ → Option ℚ → Option ℚ
  | some a, some b => some (qdiv a b)
  | _, _ => none

/-- Reducible minimum on `ℚ`. -/
def qmin (a b : ℚ) : ℚ := if a ≤ b then a else b

/-- Reducible maximum on `ℚ`. -/
def qmax (a b : ℚ) : ℚ := if a ≤ b then b else a

@[simp] theorem qmin_eq (a b : ℚ) : qmin a b = min a b := (min_def a b).symm

@[simp] theorem qmax_eq (a b : ℚ) : qmax a b = max a b := (max_def a b).symm

/-- `np.min` over the two axis lengths (NaN-propagating, as `np.min` is). -/
def omin : Option ℚ → Option ℚ → Option ℚ
  | some a, some b => some (qmin a b)
  | _, _ => none

/-- `np.max` over the two axis lengths (NaN-propagating). -/
def omax : Option ℚ → Option ℚ → Option ℚ
  | some a, some b => some (qmax a b)
  | _, _ => none

/-- Camera model constants of the pixel-to-metric projection (principal
point and focal lengths). -/
structure CamModel where
  cx : ℚ
  cy : ℚ
  fx : ℚ
  fy : ℚ

/-- Modelled from the spec: `convert_pxs_to_mm` (in `moseq2_extract.util`,
not part of the provided sources).  Spec §4.7: "convert per-frame centroid
(pixel) to physical (mm) coordinates using a perspective depth-to-metric
projection parameterized by a camera 'true depth' constant"; embedded as
the pinhole projection `mm = (px − c) · trueDepth / f` per coordinate,
propagating NaN. -/
def convert_pxs_to_mm (cam : CamModel) (trueDepth : ℚ)
    (px : Option ℚ × Option ℚ) : Option ℚ × Option ℚ :=
  (px.1.map (fun x => qdiv (qmul (qsub x cam.cx) trueDepth) cam.fx),
   px.2.map (fun y => qdiv (qmul (qsub y cam.cy) trueDepth) cam.fy))

/-- `np.diff(np.concatenate((xs[:1], xs)))`: the backward difference with
the first sample duplicated, so entry 0 is `x₀ − x₀` and entry `i ≥ 1` is
`x_i − x_{i−1}`. -/
def np_diff_first_dup (xs : List (Option ℚ)) : List (Option ℚ) :=
  List.zipWith osub xs (xs.take 1 ++ xs)

/-- Number of `true` pixels of a mask. -/
def countMask (m : List (List Bool)) : ℕ :=
  (m.map (fun row => row.countP id)).foldl (· + ·) 0

/-- Sum of the masked samples of a frame. -/
def sumMasked (fr : Frame) (m : List (List Bool)) : ℚ :=
  ((List.zipWith (fun row mrow =>
      (List.zipWith (fun v b => if b then v else (0 : ℚ)) row mrow).foldl qadd 0)
    fr m).foldl qadd 0)

/-- The scalar feature channels of `compute_scalars` (proc.py 834–924).
Velocity channels carry the squared magnitudes (see the section comment);
`velocity_theta` is represented by its `arctan2` argument pair
`(vel_y, vel_x)` of mm differences. -/
structure ScalarFeatures where
  centroid_x_px : List (Option ℚ)
  centroid_y_px : List (Option ℚ)
  velocity_2d_px_sq : List (Option ℚ)
  velocity_3d_px_sq : List (Option ℚ)
  width_px : List (Option ℚ)
  length_px : List (Option ℚ)
  area_px : List ℚ
  centroid_x_mm : List (Option ℚ)
  centroid_y_mm : List (Option ℚ)
  velocity_2d_mm_sq : List (Option ℚ)
  velocity_3d_mm_sq : List (Option ℚ)
  width_mm : List (Option ℚ)
  length_mm : List (Option ℚ)
  area_mm : List (Option ℚ)
  height_ave_mm : List ℚ
  angle : List (Option ℚ)
  velocity_theta_vec : List (Option ℚ × Option ℚ)
deriving Repr, DecidableEq

/-- `compute_scalars` (proc.py 834–924).  Faithful data flow: mm centroids
via `convert_pxs_to_mm`; per-frame px-to-mm factors as
`|convert(c + 1) − convert(c)|`; the height-band mask
`min_height < v < max_height` (strict, `np.logical_and(frames > min,
frames < max)`); `area_px` as the mask pixel count; `height_ave_mm` as the
masked mean, left at 0 when the mask is empty; velocities from
`np.diff(np.concatenate((x[:1], x)))` per channel (`vel_z` from
`height_ave_mm`); `width/length` as min/max of the two axis lengths;
`angle` the orientation channel. -/
def compute_scalars (cam : CamModel) (frames : List Frame)
    (tf : TrackFeatures) (minHeight maxHeight trueDepth : ℚ) : ScalarFeatures :=
  let centroidMm := (tf.centroidX.zip tf.centroidY).map
    (fun p => convert_pxs_to_mm cam trueDepth p)
  let centroidMmShift := (tf.centroidX.zip tf.centroidY).map
    (fun p => convert_pxs_to_mm cam trueDepth (oadd p.1 (some 1), oadd p.2 (some 1)))
  let pxToMm := List.zipWith
    (fun a b => (oabs (osub b.1 a.1), oabs (osub b.2 a.2)))
    centroidMm centroidMmShift
  let masked := frames.map (fun fr => fr.map (fun row =>
    row.map (fun v => decide (minHeight < v) && decide (v < maxHeight))))
  let area_px : List ℚ := masked.map (fun m => mkRat (countMask m) 1)
  let height_ave_mm : List ℚ := List.zipWith
    (fun fr m => if 0 < countMask m then qdiv (sumMasked fr m) (mkRat (countMask m) 1) else 0)
    frames masked
  let width_px := List.zipWith omin tf.axisLenA tf.axisLenB
  let length_px := List.zipWith omax tf.axisLenA tf.axisLenB
  let vel_x := np_diff_first_dup tf.centroidX
  let vel_y := np_diff_first_dup tf.centroidY
  let vel_z := np_diff_first_dup (height_ave_mm.map some)
  let vel_x_mm := np_diff_first_dup (centroidMm.map Prod.fst)
  let vel_y_mm := np_diff_first_dup (centroidMm.map Prod.snd)
  { centroid_x_px := tf.centroidX
    centroid_y_px := tf.centroidY
    velocity_2d_px_sq := List.zipWith (fun a b => oadd (osq a) (osq b)) vel_x vel_y
    velocity_3d_px_sq := List.zipWith (fun a bc => oadd (osq a) bc) vel_x
      (List.zipWith (fun b c => oadd (osq b) (osq c)) vel_y vel_z)
    width_px := width_px
    length_px := length_px
    area_px := area_px
    centroid_x_mm := centroidMm.map Prod.fst
    centroid_y_mm := centroidMm.map Prod.snd
    velocity_2d_mm_sq := List.zipWith (fun a b => oadd (osq a) (osq b)) vel_x_mm vel_y_mm
    velocity_3d_mm_sq := List.zipWith (fun a bc => oadd (osq a) bc) vel_x_mm
      (List.zipWith (fun b c => oadd (osq b) (osq c)) vel_y_mm vel_z)
    width_mm := List.zipWith omul width_px (pxToMm.map Prod.snd)
    length_mm := List.zipWith omul length_px (pxToMm.map Prod.fst)
    area_mm := List.zipWith (fun a pm => omul (some a) (odiv (oadd pm.1 pm.2) (some 2)))
      area_px pxToMm
    height_ave_mm := height_ave_mm
    angle := tf.orientation
    velocity_theta_vec := List.zipWith (fun vy vx => (vy, vx)) vel_y_mm vel_x_mm }

/-! ## C5 — the 2-D pixel velocity channel -/

theorem np_diff_first_dup_length (xs : List (Option ℚ)) :
    (np_diff_first_dup xs).length = xs.length := by
  simp only [np_diff_first_dup, List.length_zipWith, List.length_append,
    List.length_take]
  omega

theorem np_diff_first_dup_getD (xs : List (Option ℚ)) (i : ℕ)
    (hi : i < xs.length) :
    (np_diff_first_dup xs).getD i none =
      osub (xs.getD i none) (xs.getD (i - 1) none) := by
  have hlen : i < (np_diff_first_dup xs).length := by
    rw [np_diff_first_dup_length]
    exact hi
  rw [List.getD_eq_getElem _ _ hlen, List.getD_eq_getElem _ _ hi,
    List.getD_eq_getElem _ _ (show i - 1 < xs.length by omega)]
  unfold np_diff_first_dup
  rw [List.getElem_zipWith]
  congr 1
  rcases Nat.eq_zero_or_pos i with rfl | hpos
  · rw [List.getElem_append_left (by simp; omega)]
    simp [List.getElem_take]
  · rw [List.getElem_append_right (by simp [Nat.min_eq_left]; omega)]
    congr 1
    simp only [List.length_take]
    omega

theorem getD_zipWith_opt (f : Option ℚ → Option ℚ → Option ℚ)
    (as bs : List (Option ℚ)) (i : ℕ) (ha : i < as.length)
    (hb : i < bs.length) :
    (List.zipWith f as bs).getD i none = f (as.getD i none) (bs.getD i none) := by
  rw [List.getD_eq_getElem _ _ (by rw [List.length_zipWith]; omega),
    List.getD_eq_getElem _ _ ha, List.getD_eq_getElem _ _ hb,
    List.getElem_zipWith]

/-- C5 (amended).  The 2-D pixel velocity channel (stored squared) equals
the squared magnitude of the frame-to-frame centroid difference at every
frame after the first; at frame 0 the source duplicates the first sample
before differencing (`np.diff(np.concatenate((x[:1], x)))`), so the first
frame's velocity is 0 whenever the first centroid is present — not its
forward difference. -/
theorem compute_scalars_velocity_finite_difference
    (cam : CamModel) (frames : List Frame) (tf : TrackFeatures)
    (minH maxH td : ℚ) :
    (∀ i, 1 ≤ i → i < tf.centroidX.length → i < tf.centroidY.length →
      (compute_scalars cam frames tf minH maxH td).velocity_2d_px_sq.getD i none =
        oadd (osq (osub (tf.centroidX.getD i none) (tf.centroidX.getD (i - 1) none)))
             (osq (osub (tf.centroidY.getD i none) (tf.centroidY.getD (i - 1) none)))) ∧
    (∀ a b : ℚ, 0 < tf.centroidX.length → 0 < tf.centroidY.length →
      tf.centroidX.getD 0 none = some a → tf.centroidY.getD 0 none = some b →
      (compute_scalars cam frames tf minH maxH td).velocity_2d_px_sq.getD 0 none =
        some 0) := by
  have hdef : (compute_scalars cam frames tf minH maxH td).velocity_2d_px_sq =
      List.zipWith (fun a b => oadd (osq a) (osq b))
        (np_diff_first_dup tf.centroidX) (np_diff_first_dup tf.centroidY) := rfl
  constructor
  · intro i h1 hx hy
    rw [hdef, getD_zipWith_opt _ _ _ i
        (by rw [np_diff_first_dup_length]; exact hx)
        (by rw [np_diff_first_dup_length]; exact hy),
      np_diff_first_dup_getD _ _ hx, np_diff_first_dup_getD _ _ hy]
  · intro a b hx hy ha hb
    rw [hdef, getD_zipWith_opt _ _ _ 0
        (by rw [np_diff_first_dup_length]; exact hx)
        (by rw [np_diff_first_dup_length]; exact hy),
      np_diff_first_dup_getD _ _ hx, np_diff_first_dup_getD _ _ hy]
    simp only [Nat.zero_sub, ha, hb]
    simp [osub, osq, omul, oadd, qsub_eq, qmul_eq, qadd_eq]

/-- Default camera model constants used for concrete evaluations. -/
def cam0 : CamModel := { cx := 256, cy := 212, fx := 413, fy := 399 }

/-- The default `true_depth = 673.1` as an exact rational. -/
def td0 : ℚ := mkRat 6731 10

/-- An all-zero frame batch: `n` frames of `r` rows × `c` columns of 0. -/
def zeroBatch (n r c : ℕ) : List Frame :=
  List.replicate n (List.replicate r (List.replicate c (0 : ℚ)))

/-- A track whose centroid moves at constant pixel velocity (3, 4). -/
def constVelTf : TrackFeatures :=
  { centroidX := [some 0, some 3, some 6]
    centroidY := [some 0, some 4, some 8]
    orientation := [some 0, some 0, some 0]
    axisLenA := [some 1, some 1, some 1]
    axisLenB := [some 1, some 1, some 1] }

/-- C5 witness: at constant velocity (3, 4) the channel is `3² + 4² = 25`
(i.e. `hypot = 5`) at a frame after the first, and 0 at frame 0. -/
theorem compute_scalars_velocity_witness :
    (compute_scalars cam0 (zeroBatch 3 1 1) constVelTf 10 100 td0).velocity_2d_px_sq.getD 1 none =
      some 25 ∧
    (compute_scalars cam0 (zeroBatch 3 1 1) constVelTf 10 100 td0).velocity_2d_px_sq.getD 0 none =
      some 0 := by
  have h := compute_scalars_velocity_finite_difference cam0 (zeroBatch 3 1 1)
    constVelTf 10 100 td0
  constructor
  · have h1 := h.1 1 (by norm_num) (by decide) (by decide)
    rw [h1]
    decide
  · exact h.2 0 0 (by decide) (by decide) (by decide) (by decide)

/-- The centroid series of the C5 counterexample: frames (0,0) then (3,4). -/
def fwdDiffTf : TrackFeatures :=
  { centroidX := [some 0, some 3]
    centroidY := [some 0, some 4]
    orientation := [some 0, some 0]
    axisLenA := [some 1, some 1]
    axisLenB := [some 1, some 1] }

/-- C5 counterexample.  The claim defines frame 0's velocity as the forward
difference (the frame-0-to-frame-1 difference), here `hypot(3,4) = 5`,
squared 25; the source duplicates the first sample before `np.diff`, so the
computed channel at frame 0 is 0 (squared 0 ≠ 25; `sqrt` is injective on
nonnegatives). -/
theorem compute_scalars_first_frame_velocity_not_forward_diff :
    (compute_scalars cam0 (zeroBatch 2 1 1) fwdDiffTf 10 100 td0).velocity_2d_px_sq.getD 0 none =
      some 0 ∧ some (0 : ℚ) ≠ some (25 : ℚ) := by
  exact ⟨by decide, by decide⟩

/-! ## C3 — the all-zero frame batch -/

theorem getD_replicate_none (n i : ℕ) :
    (List.replicate n (none : Option ℚ)).getD i none = none := by
  rcases Nat.lt_or_ge i n with h | h
  · rw [List.getD_eq_getElem _ _ (by simpa using h), List.getElem_replicate]
  · exact List.getD_eq_default _ _ (by simpa using h)

theorem eq_replicate_none_of_getD (l : List (Option ℚ)) (n : ℕ)
    (hlen : l.length = n) (h : ∀ i, i < n → l.getD i none = none) :
    l = List.replicate n none := by
  refine List.eq_replicate_iff.mpr ⟨hlen, fun b hb => ?_⟩
  obtain ⟨i, hi, rfl⟩ := List.mem_iff_getElem.mp hb
  rw [← List.getD_eq_getElem l none hi]
  exact h i (by omega)

theorem countP_id_replicate_false (c : ℕ) :
    (List.replicate c false).countP id = 0 := by
  induction c with
  | zero => rfl
  | succ k ih => simp [List.replicate_succ, List.countP_cons, ih]

theorem foldl_add_replicate_zero (r : ℕ) :
    ∀ acc : ℕ, (List.replicate r (0 : ℕ)).foldl (· + ·) acc = acc := by
  induction r with
  | zero => intro acc; rfl
  | succ k ih => intro acc; simp only [List.replicate_succ, List.foldl_cons]; exact ih acc

theorem countMask_all_false (r c : ℕ) :
    countMask (List.replicate r (List.replicate c false)) = 0 := by
  unfold countMask
  rw [List.map_replicate, countP_id_replicate_false]
  exact foldl_add_replicate_zero r 0

/-- The per-frame feature row of a frame with no contour: all NaN. -/
def noneRow : MomentFeatures :=
  { centroid := (none, none), orientation := none, axisLen := (none, none) }

theorem get_frame_features_zero_batch
    (findContoursF : List (List Bool) → List Contour)
    (contourAreaF : Contour → ℚ) (momentsF : Contour → Moments)
    (sqrtF : ℚ → ℚ) (atan2F : ℚ → ℚ → ℚ)
    (ccF : List (List Bool) → List (List Bool))
    (n r c : ℕ) (thr maskThr : ℚ) (hthr : 0 ≤ thr)
    (hfc : ∀ m : List (List Bool),
      (∀ row ∈ m, ∀ b ∈ row, b = false) → findContoursF m = []) :
    (get_frame_features findContoursF contourAreaF momentsF sqrtF atan2F ccF
        (zeroBatch n r c) thr maskThr false).1 =
      { centroidX := List.replicate n none
        centroidY := List.replicate n none
        orientation := List.replicate n none
        axisLenA := List.replicate n none
        axisLenB := List.replicate n none } := by
  have hdec : (decide (thr < (0 : ℚ))) = false := decide_eq_false (not_lt.mpr hthr)
  have hcnts : findContoursF (List.replicate r (List.replicate c false)) = [] := by
    refine hfc _ (fun row hrow b hb => ?_)
    rw [List.eq_of_mem_replicate hrow] at hb
    exact List.eq_of_mem_replicate hb
  simp only [get_frame_features, zeroBatch, List.map_replicate, hdec, hcnts,
    Bool.false_eq_true, if_false]


theorem crop_all_none (warpF : List (List ℚ) → Option ℚ → List (List ℚ))
    (frames : List Frame) (tf : TrackFeatures) (cropR cropC n : ℕ)
    (hX : tf.centroidX = List.replicate n none) :
    crop_and_rotate_frames warpF frames tf cropR cropC =
      List.replicate frames.length (zeroPatch cropR cropC) := by
  unfold crop_and_rotate_frames
  refine List.eq_replicate_iff.mpr ⟨by simp, fun b hb => ?_⟩
  obtain ⟨i, hi, hfi⟩ := List.mem_map.mp hb
  subst hfi
  dsimp only
  rw [hX, getD_replicate_none]

/-- C3 (amended).  An all-zero frame batch yields NaN centroids and
orientations for every frame from `get_frame_features`, an all-zero patch
for every frame from `crop_and_rotate_frames`, a zero pixel-area channel
from `compute_scalars` — but NaN (not zero) velocity channels: the NaN
centroids propagate through the finite differences
(`NaN − NaN = NaN`, `hypot(NaN, NaN) = NaN`).  No stage crashes. -/
theorem all_zero_batch_degenerate
    (n r c cropR cropC : ℕ)
    (findContoursF : List (List Bool) → List Contour)
    (contourAreaF : Contour → ℚ) (momentsF : Contour → Moments)
    (sqrtF : ℚ → ℚ) (atan2F : ℚ → ℚ → ℚ)
    (ccF : List (List Bool) → List (List Bool))
    (warpF : List (List ℚ) → Option ℚ → List (List ℚ))
    (cam : CamModel) (thr maskThr minH maxH td : ℚ)
    (hthr : 0 ≤ thr) (hminH : 0 ≤ minH)
    (hfc : ∀ m : List (List Bool),
      (∀ row ∈ m, ∀ b ∈ row, b = false) → findContoursF m = []) :
    (get_frame_features findContoursF contourAreaF momentsF sqrtF atan2F ccF
        (zeroBatch n r c) thr maskThr false).1.centroidX = List.replicate n none ∧
    (get_frame_features findContoursF contourAreaF momentsF sqrtF atan2F ccF
        (zeroBatch n r c) thr maskThr false).1.centroidY = List.replicate n none ∧
    (get_frame_features findContoursF contourAreaF momentsF sqrtF atan2F ccF
        (zeroBatch n r c) thr maskThr false).1.orientation = List.replicate n none ∧
    crop_and_rotate_frames warpF (zeroBatch n r c)
        (get_frame_features findContoursF contourAreaF momentsF sqrtF atan2F ccF
          (zeroBatch n r c) thr maskThr false).1 cropR cropC =
      List.replicate n (zeroPatch cropR cropC) ∧
    (compute_scalars cam (zeroBatch n r c)
        (get_frame_features findContoursF contourAreaF momentsF sqrtF atan2F ccF
          (zeroBatch n r c) thr maskThr false).1 minH maxH td).area_px =
      List.replicate n 0 ∧
    (compute_scalars cam (zeroBatch n r c)
        (get_frame_features findContoursF contourAreaF momentsF sqrtF atan2F ccF
          (zeroBatch n r c) thr maskThr false).1 minH maxH td).velocity_2d_px_sq =
      List.replicate n none := by
  have htf := get_frame_features_zero_batch findContoursF contourAreaF momentsF
    sqrtF atan2F ccF n r c thr maskThr hthr hfc
  rw [htf]
  refine ⟨rfl, rfl, rfl, ?_, ?_, ?_⟩
  · -- every frame's centroid is NaN, so every patch stays the all-zero patch
    rw [crop_all_none _ _ _ _ _ n rfl]
    simp [zeroBatch]
  · -- the height-band mask is empty: `min_height < 0` fails on zero samples
    show (List.map _ (List.map _ (zeroBatch n r c))) = _
    unfold zeroBatch
    simp only [List.map_replicate, decide_eq_false (not_lt.mpr hminH),
      Bool.false_and, countMask_all_false]
    norm_num
  · -- velocity: NaN differences of NaN centroids
    have hdef : (compute_scalars cam (zeroBatch n r c)
        ({ centroidX := List.replicate n none
           centroidY := List.replicate n none
           orientation := List.replicate n none
           axisLenA := List.replicate n none
           axisLenB := List.replicate n none } : TrackFeatures)
        minH maxH td).velocity_2d_px_sq =
        List.zipWith (fun a b => oadd (osq a) (osq b))
          (np_diff_first_dup (List.replicate n none))
          (np_diff_first_dup (List.replicate n none)) := rfl
    rw [hdef]
    refine eq_replicate_none_of_getD _ n ?_ ?_
    · rw [List.length_zipWith, np_diff_first_dup_length]
      simp
    · intro i hi
      rw [getD_zipWith_opt _ _ _ i
          (by rw [np_diff_first_dup_length, List.length_replicate]; exact hi)
          (by rw [np_diff_first_dup_length, List.length_replicate]; exact hi),
        np_diff_first_dup_getD _ _ (by simpa using hi),
        getD_replicate_none, getD_replicate_none]
      rfl

/-- Concrete stand-ins for the external collaborators (contour finder that
finds nothing, zero-valued oracles, identity warp). -/
def trivialContours : List (List Bool) → List Contour := fun _ => []

/-- Zero contour-area oracle. -/
def trivialArea : Contour → ℚ := fun _ => 0

/-- Zero moments oracle. -/
def trivialMoments : Contour → Moments := fun _ => ⟨0, 0, 0, 0, 0, 0⟩

/-- Zero square-root oracle. -/
def trivialSqrt : ℚ → ℚ := fun _ => 0

/-- Zero arctan2 oracle. -/
def trivialAtan2 : ℚ → ℚ → ℚ := fun _ _ => 0

/-- Identity connected-component oracle. -/
def trivialCC : List (List Bool) → List (List Bool) := fun m => m

/-- Identity warp oracle. -/
def trivialWarp : List (List ℚ) → Option ℚ → List (List ℚ) := fun w _ => w

/-- C3 counterexample.  On the concrete all-zero 2-frame batch the computed
2-D pixel velocity channel is `[NaN, NaN]`, not the zero-valued channel the
claim asserts. -/
theorem all_zero_batch_velocity_nan :
    (compute_scalars cam0 (zeroBatch 2 1 1)
        (get_frame_features trivialContours trivialArea trivialMoments
          trivialSqrt trivialAtan2 trivialCC (zeroBatch 2 1 1) 10 (-30) false).1
        10 100 td0).velocity_2d_px_sq = [none, none] ∧
      (none : Option ℚ) ≠ some 0 := by
  exact ⟨by decide, by decide⟩

/-- C3 witness: the amended theorem applied to a concrete 2-frame 1×1 zero
batch with 3×3 crops. -/
theorem all_zero_batch_degenerate_witness :
    crop_and_rotate_frames trivialWarp (zeroBatch 2 1 1)
        (get_frame_features trivialContours trivialArea trivialMoments
          trivialSqrt trivialAtan2 trivialCC (zeroBatch 2 1 1) 10 (-30) false).1
        3 3 =
      List.replicate 2 (zeroPatch 3 3) :=
  (all_zero_batch_degenerate 2 1 1 3 3 trivialContours trivialArea
    trivialMoments trivialSqrt trivialAtan2 trivialCC trivialWarp cam0
    10 (-30) 10 100 td0 (by norm_num) (by norm_num)
    (fun _ _ => rfl)).2.2.2.1

/-! ## `model_smoother` (proc.py 973–1031)

Channels are per-frame time series (2-D channels behave per column exactly
like 1-D ones in every step below, so a channel is a `List (Option ℚ)`).
The stage is enabled iff `ll` and `clips` are present and
`clips[0] < clips[1]`.  The per-frame confidence is
`np.clip((np.mean(ll[i]) − clips[0]) / (clips[1] − clips[0]), 0, 1)`;
NaN-containing channels are first filled by nearest-index interpolation
(`scipy.interpolate.interp1d(..., kind='nearest', fill_value='extrapolate')`,
which at exact midpoints rounds to the lower index); the forward loop is
`for i in range(2, len(ave_ll))` and the backward loop
`for i in reversed(range(len(ave_ll) − 1))`, each updating the channel in
place, so each step reads already-updated neighbours.  (The source would
raise on an all-NaN channel — `interp1d` with empty coordinates; that case
is unreachable below and the embedding leaves such a channel unchanged.) -/

/-- `np.mean` (NaN on an empty array). -/
def np_mean (l : List ℚ) : Option ℚ :=
  match l with
  | [] => none
  | _ => some (qdiv (l.foldl qadd 0) (mkRat l.length 1))

/-- `np.clip(x, 0, 1)`. -/
def qclip01 (x : ℚ) : ℚ := if x < 0 then 0 else if 1 < x then 1 else x

/-- The per-frame confidence weights (`ave_ll` in the source). -/
def aveLL (ll : List (List ℚ)) (lo hi : ℚ) : List (Option ℚ) :=
  ll.map (fun fr => (np_mean fr).map (fun m => qclip01 (qdiv (qsub m lo) (qsub hi lo))))

/-- Distance between indices. -/
def idxDist (a b : ℕ) : ℕ := max a b - min a b

/-- Nearest index of `known` to `j` (ties to the smaller index, as
`interp1d(kind='nearest')` rounds down at midpoints). -/
def nearestIdx (known : List ℕ) (j : ℕ) : ℕ :=
  known.foldl (fun best k => if idxDist k j < idxDist best j then k else best)
    (known.headD 0)

/-- Nearest-value NaN interpolation along the time axis (run only when the
channel contains a NaN, as in the source's `if nans.any()`). -/
def nanInterpNearest (v : List (Option ℚ)) : List (Option ℚ) :=
  if v.any (fun x => x.isNone) then
    let known := (List.range v.length).filter (fun j => (v.getD j none).isSome)
    if known = [] then v
    else (List.range v.length).map (fun j =>
      match v.getD j none with
      | some x => some x
      | none => v.getD (nearestIdx known j) none)
  else v

/-- One forward-pass update:
`features[k][i] = (1 − ave_ll[i]) * v[i−1] + ave_ll[i] * v[i]` (in place, so
`v[i−1]` is the already-updated value). -/
def smoothStepF (w : List (Option ℚ)) (v : List (Option ℚ)) (i : ℕ) :
    List (Option ℚ) :=
  v.set i (oadd (omul (osub (some 1) (w.getD i none)) (v.getD (i - 1) none))
               (omul (w.getD i none) (v.getD i none)))

/-- One backward-pass update:
`features[k][i] = (1 − ave_ll[i]) * v[i+1] + ave_ll[i] * v[i]`. -/
def smoothStepB (w : List (Option ℚ)) (v : List (Option ℚ)) (i : ℕ) :
    List (Option ℚ) :=
  v.set i (oadd (omul (osub (some 1) (w.getD i none)) (v.getD (i + 1) none))
               (omul (w.getD i none) (v.getD i none)))

/-- The forward pass, `for i in range(2, len(ave_ll))`. -/
def forwardPass (w : List (Option ℚ)) (v : List (Option ℚ)) :
    List (Option ℚ) :=
  (List.range' 2 (w.length - 2)).foldl (smoothStepF w) v

/-- The backward pass, `for i in reversed(range(len(ave_ll) − 1))`. -/
def backwardPass (w : List (Option ℚ)) (v : List (Option ℚ)) :
    List (Option ℚ) :=
  ((List.range (w.length - 1)).reverse).foldl (smoothStepB w) v

/-- `model_smoother` (proc.py 973–1031). -/
def model_smoother (features : List (List (Option ℚ)))
    (ll : Option (List (List ℚ))) (clips : Option (ℚ × ℚ)) :
    List (List (Option ℚ)) :=
  match ll, clips with
  | some llv, some cl =>
    if cl.2 ≤ cl.1 then features
    else
      let w := aveLL llv cl.1 cl.2
      ((features.map nanInterpNearest).map (forwardPass w)).map (backwardPass w)
  | _, _ => features

/-- The claim's version of the smoother, for refinement comparison: its
forward pass updates "every frame i after the first", i.e. runs over
`range(1, len(ave_ll))` instead of the source's `range(2, len(ave_ll))`;
everything else is identical. -/
def model_smoother_claimed (features : List (List (Option ℚ)))
    (ll : Option (List (List ℚ))) (clips : Option (ℚ × ℚ)) :
    List (List (Option ℚ)) :=
  match ll, clips with
  | some llv, some cl =>
    if cl.2 ≤ cl.1 then features
    else
      let w := aveLL llv cl.1 cl.2
      ((features.map nanInterpNearest).map
        (fun v => (List.range' 1 (w.length - 1)).foldl (smoothStepF w) v)).map
        (backwardPass w)
  | _, _ => features

/-- C6 counterexample.  With channel `[0, 1, 0]`, confidence ½ per frame
and clips `(0, 1)`, the source's two passes give `[3/8, 3/4, 1/2]`, while
the claim's forward pass (updating every frame after the first, i.e. also
frame 1) would give `[3/16, 3/8, 1/4]`: the claim is false of the code —
the forward loop starts at the third frame (`range(2, n)`), leaving frame 1
untouched on the forward pass. -/
theorem model_smoother_forward_pass_skips_second_frame :
    model_smoother [[some 0, some 1, some 0]]
        (some [[mkRat 1 2], [mkRat 1 2], [mkRat 1 2]]) (some (0, 1)) =
      [[some (mkRat 3 8), some (mkRat 3 4), some (mkRat 1 2)]] ∧
    model_smoother_claimed [[some 0, some 1, some 0]]
        (some [[mkRat 1 2], [mkRat 1 2], [mkRat 1 2]]) (some (0, 1)) =
      [[some (mkRat 3 16), some (mkRat 3 8), some (mkRat 1 4)]] ∧
    model_smoother [[some 0, some 1, some 0]]
        (some [[mkRat 1 2], [mkRat 1 2], [mkRat 1 2]]) (some (0, 1)) ≠
      model_smoother_claimed [[some 0, some 1, some 0]]
        (some [[mkRat 1 2], [mkRat 1 2], [mkRat 1 2]]) (some (0, 1)) := by
  refine ⟨by decide, by decide, by decide⟩

/-! ## C6 — characterization of the two smoothing passes -/

theorem getD_set_ne_opt (v : List (Option ℚ)) (i j : ℕ) (x : Option ℚ)
    (h : i ≠ j) : (v.set i x).getD j none = v.getD j none := by
  rw [List.getD_eq_getElem?_getD, List.getD_eq_getElem?_getD,
    List.getElem?_set_ne h]

theorem getD_set_self_opt (v : List (Option ℚ)) (i : ℕ) (x : Option ℚ)
    (h : i < v.length) : (v.set i x).getD i none = x := by
  rw [List.getD_eq_getElem?_getD, List.getElem?_set_self h]
  rfl

theorem smoothStepF_getD_ne (w v : List (Option ℚ)) (i j : ℕ) (h : i ≠ j) :
    (smoothStepF w v i).getD j none = v.getD j none :=
  getD_set_ne_opt _ _ _ _ h

theorem smoothStepB_getD_ne (w v : List (Option ℚ)) (i j : ℕ) (h : i ≠ j) :
    (smoothStepB w v i).getD j none = v.getD j none :=
  getD_set_ne_opt _ _ _ _ h

theorem smoothStepF_getD_self (w v : List (Option ℚ)) (i : ℕ)
    (h : i < v.length) :
    (smoothStepF w v i).getD i none =
      oadd (omul (osub (some 1) (w.getD i none)) (v.getD (i - 1) none))
           (omul (w.getD i none) (v.getD i none)) :=
  getD_set_self_opt _ _ _ h

theorem smoothStepB_getD_self (w v : List (Option ℚ)) (i : ℕ)
    (h : i < v.length) :
    (smoothStepB w v i).getD i none =
      oadd (omul (osub (some 1) (w.getD i none)) (v.getD (i + 1) none))
           (omul (w.getD i none) (v.getD i none)) :=
  getD_set_self_opt _ _ _ h

theorem foldl_getD_not_mem (g : List (Option ℚ) → ℕ → List (Option ℚ))
    (hg : ∀ v i j, i ≠ j → (g v i).getD j none = v.getD j none) :
    ∀ (l : List ℕ) (v : List (Option ℚ)) (j : ℕ), j ∉ l →
      (l.foldl g v).getD j none = v.getD j none := by
  intro l
  induction l with
  | nil => intro v j _; rfl
  | cons a t ih =>
    intro v j hj
    rw [List.foldl_cons, ih _ _ (fun h => hj (List.mem_cons_of_mem _ h)),
      hg v a j (fun h => hj (h ▸ List.mem_cons_self a t))]

theorem foldl_length_pres (g : List (Option ℚ) → ℕ → List (Option ℚ))
    (hg : ∀ v i, (g v i).length = v.length) :
    ∀ (l : List ℕ) (v : List (Option ℚ)), (l.foldl g v).length = v.length := by
  intro l
  induction l with
  | nil => intro v; rfl
  | cons a t ih => intro v; rw [List.foldl_cons, ih, hg]

theorem smoothStepF_length (w v : List (Option ℚ)) (i : ℕ) :
    (smoothStepF w v i).length = v.length := by
  simp [smoothStepF]

theorem smoothStepB_length (w v : List (Option ℚ)) (i : ℕ) :
    (smoothStepB w v i).length = v.length := by
  simp [smoothStepB]

theorem forwardPass_getD_lt_two (w v : List (Option ℚ)) (j : ℕ) (hj : j < 2) :
    (forwardPass w v).getD j none = v.getD j none := by
  refine foldl_getD_not_mem _ (smoothStepF_getD_ne w) _ _ _ ?_
  intro hmem
  rw [List.mem_range'_1] at hmem
  omega

theorem forwardPass_getD_rec (w v : List (Option ℚ)) (hv : v.length = w.length)
    (i : ℕ) (h2 : 2 ≤ i) (hi : i < w.length) :
    (forwardPass w v).getD i none =
      oadd (omul (osub (some 1) (w.getD i none))
                 ((forwardPass w v).getD (i - 1) none))
           (omul (w.getD i none) (v.getD i none)) := by
  have hsplit : List.range' 2 (w.length - 2) =
      List.range' 2 (i - 2) ++ i :: List.range' (i + 1) (w.length - i - 1) := by
    have e1 : w.length - 2 = (w.length - i) + (i - 2) := by omega
    have happ := List.range'_append 2 (i - 2) (w.length - i) 1
    have e2 : 2 + 1 * (i - 2) = i := by omega
    rw [e2] at happ
    have e3 : List.range' i (w.length - i) =
        i :: List.range' (i + 1) (w.length - i - 1) := by
      have h' : w.length - i = (w.length - i - 1) + 1 := by omega
      conv_lhs => rw [h']
      rw [List.range'_succ]
    rw [e1, ← happ, e3]
  have hFA := foldl_getD_not_mem _ (smoothStepF_getD_ne w)
    (List.range' 2 (i - 2)) v
  have hlenFA : ((List.range' 2 (i - 2)).foldl (smoothStepF w) v).length =
      v.length :=
    foldl_length_pres _ (smoothStepF_length w) _ _
  have hrest := foldl_getD_not_mem _ (smoothStepF_getD_ne w)
    (List.range' (i + 1) (w.length - i - 1))
  have hFdef : forwardPass w v =
      (List.range' (i + 1) (w.length - i - 1)).foldl (smoothStepF w)
        (smoothStepF w ((List.range' 2 (i - 2)).foldl (smoothStepF w) v) i) := by
    rw [forwardPass, hsplit, List.foldl_append, List.foldl_cons]
  have hgi : (forwardPass w v).getD i none =
      (smoothStepF w ((List.range' 2 (i - 2)).foldl (smoothStepF w) v) i).getD i none := by
    rw [hFdef]
    refine hrest _ _ ?_
    intro hmem
    rw [List.mem_range'_1] at hmem
    omega
  have hgi1 : (forwardPass w v).getD (i - 1) none =
      ((List.range' 2 (i - 2)).foldl (smoothStepF w) v).getD (i - 1) none := by
    rw [hFdef]
    rw [hrest _ (i - 1) (by intro hmem; rw [List.mem_range'_1] at hmem; omega)]
    rw [smoothStepF_getD_ne w _ i (i - 1) (by omega)]
  have hvi : ((List.range' 2 (i - 2)).foldl (smoothStepF w) v).getD i none =
      v.getD i none := by
    refine hFA i ?_
    intro hmem
    rw [List.mem_range'_1] at hmem
    omega
  rw [hgi, smoothStepF_getD_self w _ i (by rw [hlenFA, hv]; exact hi), hvi, hgi1]

theorem backwardPass_getD_ge (w v : List (Option ℚ)) (j : ℕ)
    (hj : w.length - 1 ≤ j) :
    (backwardPass w v).getD j none = v.getD j none := by
  refine foldl_getD_not_mem _ (smoothStepB_getD_ne w) _ _ _ ?_
  intro hmem
  rw [List.mem_reverse, List.mem_range] at hmem
  omega

theorem backwardPass_getD_rec (w v : List (Option ℚ)) (hv : v.length = w.length)
    (i : ℕ) (hi : i < w.length - 1) :
    (backwardPass w v).getD i none =
      oadd (omul (osub (some 1) (w.getD i none))
                 ((backwardPass w v).getD (i + 1) none))
           (omul (w.getD i none) (v.getD i none)) := by
  have hsplit : (List.range (w.length - 1)).reverse =
      (List.range' (i + 1) (w.length - 1 - i - 1)).reverse ++
        i :: (List.range' 0 i).reverse := by
    have e1 : w.length - 1 = (w.length - 1 - i - 1) + (i + 1) := by omega
    have happ := List.range'_append 0 (i + 1) (w.length - 1 - i - 1) 1
    have e2 : 0 + 1 * (i + 1) = i + 1 := by omega
    rw [e2] at happ
    have hconcat := @List.range'_concat 1 0 i
    have e4 : 0 + 1 * i = i := by omega
    rw [e4] at hconcat
    rw [List.range_eq_range']
    conv_lhs => rw [e1, ← happ]
    rw [List.reverse_append, hconcat, List.reverse_append]
    rfl
  have hGdef : backwardPass w v =
      ((List.range' 0 i).reverse).foldl (smoothStepB w)
        (smoothStepB w
          (((List.range' (i + 1) (w.length - 1 - i - 1)).reverse).foldl
            (smoothStepB w) v) i) := by
    rw [backwardPass, hsplit, List.foldl_append, List.foldl_cons]
  have hlenG : (((List.range' (i + 1) (w.length - 1 - i - 1)).reverse).foldl
      (smoothStepB w) v).length = v.length :=
    foldl_length_pres _ (smoothStepB_length w) _ _
  have hlow := foldl_getD_not_mem _ (smoothStepB_getD_ne w)
    ((List.range' 0 i).reverse)
  have hhigh := foldl_getD_not_mem _ (smoothStepB_getD_ne w)
    ((List.range' (i + 1) (w.length - 1 - i - 1)).reverse) v
  have hgi : (backwardPass w v).getD i none =
      (smoothStepB w
        (((List.range' (i + 1) (w.length - 1 - i - 1)).reverse).foldl
          (smoothStepB w) v) i).getD i none := by
    rw [hGdef]
    refine hlow _ _ ?_
    intro hmem
    rw [List.mem_reverse, List.mem_range'_1] at hmem
    omega
  have hgi1 : (backwardPass w v).getD (i + 1) none =
      (((List.range' (i + 1) (w.length - 1 - i - 1)).reverse).foldl
        (smoothStepB w) v).getD (i + 1) none := by
    rw [hGdef]
    rw [hlow _ (i + 1) (by intro hmem; rw [List.mem_reverse, List.mem_range'_1] at hmem; omega)]
    rw [smoothStepB_getD_ne w _ i (i + 1) (by omega)]
  have hvi : (((List.range' (i + 1) (w.length - 1 - i - 1)).reverse).foldl
      (smoothStepB w) v).getD i none = v.getD i none := by
    refine hhigh i ?_
    intro hmem
    rw [List.mem_reverse, List.mem_range'_1] at hmem
    omega
  rw [hgi, smoothStepB_getD_self w _ i (by rw [hlenG, hv]; omega), hvi, hgi1]

theorem nanInterpNearest_of_all_some (v : List (Option ℚ))
    (h : ∀ x ∈ v, x.isSome = true) : nanInterpNearest v = v := by
  unfold nanInterpNearest
  rw [if_neg]
  intro hany
  obtain ⟨x, hx, hnone⟩ := List.any_eq_true.mp hany
  rw [Option.isNone_iff_eq_none.mp hnone] at hx
  exact absurd (h none hx) (by simp)

/-- C6 (amended).  When smoothing is enabled (`ll` present, `clips`
increasing) and the channels are NaN-free, `model_smoother` maps every
channel through one forward and one backward in-place pass with the
confidence weights `ave_ll`; the backward pass satisfies exactly the
claimed recurrence (`out[i] = (1−w_i)·out[i+1] + w_i·in[i]` for every frame
before the last), but the forward pass starts at the THIRD frame
(`for i in range(2, len(ave_ll))`): frames 0 and 1 are left unchanged by
it, so "each frame i after the first" is wrong for i = 1. -/
theorem model_smoother_two_pass_characterization
    (features : List (List (Option ℚ))) (llv : List (List ℚ)) (lo hi : ℚ)
    (hlohi : lo < hi)
    (hnn : ∀ ch ∈ features, ∀ x ∈ ch, x.isSome = true) :
    (model_smoother features (some llv) (some (lo, hi)) =
      features.map (fun v =>
        backwardPass (aveLL llv lo hi) (forwardPass (aveLL llv lo hi) v))) ∧
    (∀ v : List (Option ℚ), v.length = (aveLL llv lo hi).length →
      (∀ j, j < 2 →
        (forwardPass (aveLL llv lo hi) v).getD j none = v.getD j none) ∧
      (∀ i, 2 ≤ i → i < (aveLL llv lo hi).length →
        (forwardPass (aveLL llv lo hi) v).getD i none =
          oadd (omul (osub (some 1) ((aveLL llv lo hi).getD i none))
                     ((forwardPass (aveLL llv lo hi) v).getD (i - 1) none))
               (omul ((aveLL llv lo hi).getD i none) (v.getD i none)))) ∧
    (∀ v : List (Option ℚ), v.length = (aveLL llv lo hi).length →
      (∀ j, (aveLL llv lo hi).length - 1 ≤ j →
        (backwardPass (aveLL llv lo hi) v).getD j none = v.getD j none) ∧
      (∀ i, i < (aveLL llv lo hi).length - 1 →
        (backwardPass (aveLL llv lo hi) v).getD i none =
          oadd (omul (osub (some 1) ((aveLL llv lo hi).getD i none))
                     ((backwardPass (aveLL llv lo hi) v).getD (i + 1) none))
               (omul ((aveLL llv lo hi).getD i none) (v.getD i none)))) := by
  refine ⟨?_, ?_, ?_⟩
  · show (if hi ≤ lo then features else _) = _
    rw [if_neg (not_le.mpr hlohi)]
    rw [map_fix_eq_self nanInterpNearest features
      (fun ch hch => nanInterpNearest_of_all_some ch (hnn ch hch))]
    rw [List.map_map]
    rfl
  · intro v hv
    exact ⟨fun j hj => forwardPass_getD_lt_two _ v j hj,
           fun i h2 hi => forwardPass_getD_rec _ v hv i h2 hi⟩
  · intro v hv
    exact ⟨fun j hj => backwardPass_getD_ge _ v j hj,
           fun i hi => backwardPass_getD_rec _ v hv i hi⟩

/-- C6 witness: the characterization applied to the concrete enabled
configuration of the counterexample. -/
theorem model_smoother_two_pass_witness :
    model_smoother [[some 0, some 1, some 0]]
        (some [[mkRat 1 2], [mkRat 1 2], [mkRat 1 2]]) (some (0, 1)) =
      [[some 0, some 1, some 0]].map (fun v =>
        backwardPass (aveLL [[mkRat 1 2], [mkRat 1 2], [mkRat 1 2]] 0 1)
          (forwardPass (aveLL [[mkRat 1 2], [mkRat 1 2], [mkRat 1 2]] 0 1) v)) :=
  (model_smoother_two_pass_characterization [[some 0, some 1, some 0]]
    [[mkRat 1 2], [mkRat 1 2], [mkRat 1 2]] 0 1 (by norm_num) (by decide)).1

/-! ## `get_largest_cc` (proc.py 76–98)

Per frame the source calls
`cv2.connectedComponentsWithStats(frames[i], connectivity=4)`, takes the
per-label areas `szs = stats[:, -1]` (label 0 is the background) and builds
`foreground_obj[i] = output == szs[1:].argmax() + 1`.  The labelling itself
is computed by OpenCV — an external collaborator — so it enters the
embedding as data (`CCLabeling`) constrained by its documented contract
(`ccSpec`): label 0 exactly on zero pixels, labels `0 … nb−1` all used, and
equal nonzero labels exactly on 4-connected foreground pixels.  When the
frame has no foreground pixel, `nb = 1` and `szs[1:]` is empty, so
`szs[1:].argmax()` raises `ValueError` — embedded as `none`. -/

/-- A pixel position is inside the frame grid. -/
def inBoundsF (f : List (List ℕ)) (p : ℕ × ℕ) : Prop :=
  p.1 < f.length ∧ p.2 < (f.getD p.1 []).length

/-- Pixel value (numpy default 0 outside the grid). -/
def pixelF (f : List (List ℕ)) (p : ℕ × ℕ) : ℕ :=
  (f.getD p.1 []).getD p.2 0

/-- A foreground pixel: in bounds and nonzero. -/
def fgF (f : List (List ℕ)) (p : ℕ × ℕ) : Prop :=
  inBoundsF f p ∧ pixelF f p ≠ 0

/-- 4-adjacency between foreground pixels. -/
def adjF (f : List (List ℕ)) (p q : ℕ × ℕ) : Prop :=
  fgF f p ∧ fgF f q ∧
    ((p.1 = q.1 ∧ (p.2 + 1 = q.2 ∨ q.2 + 1 = p.2)) ∨
     (p.2 = q.2 ∧ (p.1 + 1 = q.1 ∨ q.1 + 1 = p.1)))

/-- 4-connectivity: reflexive-transitive closure of 4-adjacency. -/
def connectedF (f : List (List ℕ)) (p q : ℕ × ℕ) : Prop :=
  Relation.ReflTransGen (adjF f) p q

/-- The output of `cv2.connectedComponentsWithStats`: the label image and
the number of labels (`nb_components`). -/
structure CCLabeling where
  labels : List (List ℕ)
  nb : ℕ

/-- Label of a pixel (0 outside the label image). -/
def labelAt (L : CCLabeling) (p : ℕ × ℕ) : ℕ :=
  (L.labels.getD p.1 []).getD p.2 0

/-- The documented contract of `cv2.connectedComponentsWithStats` with
`connectivity=4`, i.e. what the source relies on: label 0 exactly on the
zero (background) pixels and outside the grid; at least the background
label exists; in-grid labels are `< nb`; every label `1 … nb−1` is used;
and two foreground pixels carry the same label iff they are 4-connected. -/
def ccSpec (f : List (List ℕ)) (L : CCLabeling) : Prop :=
  (∀ p, inBoundsF f p → (pixelF f p = 0 ↔ labelAt L p = 0)) ∧
  (∀ p, ¬ inBoundsF f p → labelAt L p = 0) ∧
  (1 ≤ L.nb) ∧
  (∀ p, inBoundsF f p → labelAt L p < L.nb) ∧
  (∀ k, 1 ≤ k → k < L.nb → ∃ p, inBoundsF f p ∧ labelAt L p = k) ∧
  (∀ p q, fgF f p → fgF f q → (labelAt L p = labelAt L q ↔ connectedF f p q))

/-- Row-major enumeration of the grid positions of a frame. -/
def cellsF (f : List (List ℕ)) : List (ℕ × ℕ) :=
  (List.range f.length).flatMap (fun r =>
    (List.range (f.getD r []).length).map (fun c => (r, c)))

/-- Area of label `k` (`stats[:, -1]` of cv2): number of grid pixels
carrying label `k`. -/
def labelSize (f : List (List ℕ)) (L : CCLabeling) (k : ℕ) : ℕ :=
  (cellsF f).countP (fun p => labelAt L p == k)

/-- `np.argmax` over a list of naturals: first index attaining the
maximum (0 on the empty list, where numpy raises instead — callers check). -/
def npArgmaxNat : List ℕ → ℕ
  | [] => 0
  | x :: xs =>
    let r := npArgmaxNat xs
    if xs.getD r 0 ≤ x then 0 else r + 1

theorem npArgmaxNat_lt (l : List ℕ) (hl : l ≠ []) : npArgmaxNat l < l.length := by
  induction l with
  | nil => exact absurd rfl hl
  | cons x xs ih =>
    show (if xs.getD (npArgmaxNat xs) 0 ≤ x then 0 else npArgmaxNat xs + 1) <
      xs.length + 1
    by_cases h : xs.getD (npArgmaxNat xs) 0 ≤ x
    · rw [if_pos h]
      omega
    · rw [if_neg h]
      have hxs : xs ≠ [] := by
        intro he
        subst he
        exact h (Nat.zero_le x)
      have := ih hxs
      omega

theorem npArgmaxNat_max (l : List ℕ) :
    ∀ j, j < l.length → l.getD j 0 ≤ l.getD (npArgmaxNat l) 0 := by
  induction l with
  | nil => intro j hj; exact absurd hj (by simp)
  | cons x xs ih =>
    intro j hj
    show (x :: xs).getD j 0 ≤
      (x :: xs).getD (if xs.getD (npArgmaxNat xs) 0 ≤ x then 0 else npArgmaxNat xs + 1) 0
    by_cases h : xs.getD (npArgmaxNat xs) 0 ≤ x
    · rw [if_pos h]
      match j with
      | 0 => exact le_refl x
      | j' + 1 =>
        show xs.getD j' 0 ≤ x
        exact le_trans (ih j' (by simpa using hj)) h
    · rw [if_neg h]
      match j with
      | 0 => exact le_of_lt (lt_of_not_le h)
      | j' + 1 =>
        show xs.getD j' 0 ≤ xs.getD (npArgmaxNat xs) 0
        exact ih j' (by simpa using hj)

/-- One frame of `get_largest_cc` (proc.py 76–98) given the external
labelling: `szs[1:]` empty (no non-background label, i.e. `nb ≤ 1`) makes
`argmax` raise `ValueError` (`none`); otherwise the boolean mask
`output == szs[1:].argmax() + 1`. -/
def get_largest_cc_frame (f : List (List ℕ)) (L : CCLabeling) :
    Option (List (List Bool)) :=
  if L.nb ≤ 1 then none
  else
    let szs := (List.range L.nb).map (labelSize f L)
    let best := npArgmaxNat (szs.drop 1) + 1
    some ((List.range f.length).map (fun r =>
      (List.range (f.getD r []).length).map (fun c => labelAt L (r, c) == best)))

/-- The batch form of `get_largest_cc`: one labelling per frame; a frame
with no foreground aborts the whole call (the Python exception propagates). -/
def get_largest_cc (ccOracle : List (List ℕ) → CCLabeling)
    (frames : List (List (List ℕ))) : Option (List (List (List Bool))) :=
  frames.mapM (fun f => get_largest_cc_frame f (ccOracle f))

theorem szs_tail_getD (f : List (List ℕ)) (L : CCLabeling) (j : ℕ)
    (hj : j < L.nb - 1) :
    (((List.range L.nb).map (labelSize f L)).drop 1).getD j 0 =
      labelSize f L (1 + j) := by
  have hlen : (((List.range L.nb).map (labelSize f L)).drop 1).length =
      L.nb - 1 := by simp
  rw [List.getD_eq_getElem _ _ (by rw [hlen]; exact hj), List.getElem_drop,
    List.getElem_map, List.getElem_range]

theorem largest_mask_at (f : List (List ℕ)) (L : CCLabeling) (best : ℕ)
    (q : ℕ × ℕ) :
    ((((List.range f.length).map (fun r =>
        (List.range (f.getD r []).length).map
          (fun c => labelAt L (r, c) == best))).getD q.1 []).getD q.2 false) =
        true ↔
      (inBoundsF f q ∧ labelAt L q = best) := by
  by_cases h1 : q.1 < f.length
  · have hrow : (((List.range f.length).map (fun r =>
        (List.range (f.getD r []).length).map
          (fun c => labelAt L (r, c) == best))).getD q.1 []) =
        (List.range (f.getD q.1 []).length).map
          (fun c => labelAt L (q.1, c) == best) := by
      rw [List.getD_eq_getElem _ _ (by simpa using h1), List.getElem_map,
        List.getElem_range]
    rw [hrow]
    by_cases h2 : q.2 < (f.getD q.1 []).length
    · rw [List.getD_eq_getElem _ _ (by simpa using h2), List.getElem_map,
        List.getElem_range]
      constructor
      · intro hb
        exact ⟨⟨h1, h2⟩, beq_iff_eq.mp hb⟩
      · intro hq
        exact beq_iff_eq.mpr hq.2
    · rw [List.getD_eq_default _ _ (by simpa using le_of_not_lt h2)]
      constructor
      · intro hb
        exact absurd hb (by simp)
      · intro hq
        exact absurd hq.1.2 h2
  · have hrow0 : (((List.range f.length).map (fun r =>
        (List.range (f.getD r []).length).map
          (fun c => labelAt L (r, c) == best))).getD q.1 []) = [] :=
      List.getD_eq_default _ _ (by simpa using le_of_not_lt h1)
    rw [hrow0]
    constructor
    · intro hb
      exact absurd hb (by simp)
    · intro hq
      exact absurd hq.1.1 h1

theorem connectedF_imp (f : List (List ℕ)) (p q : ℕ × ℕ)
    (h : connectedF f p q) : q = p ∨ fgF f q := by
  rcases h.cases_tail with h1 | ⟨c, _, hadj⟩
  · exact Or.inl h1
  · exact Or.inr hadj.2.1

/-- C10.  Under the `cv2.connectedComponentsWithStats` contract,
`get_largest_cc` on one frame: (a) with no foreground pixel, `nb = 1`, so
`szs[1:]` is empty and `szs[1:].argmax()` raises `ValueError` instead of
returning an empty mask — the operation fails; (b) with at least one
foreground pixel it returns the boolean mask of a largest non-background
4-connected component: the mask is exactly the connectivity class of one of
its foreground pixels, and no foreground pixel's component is larger.
Hence every caller taking the connected-component path must guarantee
non-empty foreground per frame. -/
theorem get_largest_cc_spec (f : List (List ℕ)) (L : CCLabeling)
    (hcc : ccSpec f L) :
    ((¬ ∃ p, fgF f p) → get_largest_cc_frame f L = none) ∧
    ((∃ p, fgF f p) → ∃ mask, get_largest_cc_frame f L = some mask ∧
      ∃ p0, fgF f p0 ∧
        (∀ q, ((mask.getD q.1 []).getD q.2 false = true) ↔ connectedF f p0 q) ∧
        (∀ p, fgF f p →
          labelSize f L (labelAt L p) ≤ labelSize f L (labelAt L p0))) := by
  obtain ⟨h0, hout, h1nb, hlt, hused, hconn⟩ := hcc
  constructor
  · intro hno
    have hnb : L.nb = 1 := by
      by_contra hne
      obtain ⟨p, hpin, hpl⟩ := hused 1 (le_refl 1) (by omega)
      have hpx : pixelF f p ≠ 0 := by
        intro hz
        have := (h0 p hpin).mp hz
        omega
      exact hno ⟨p, hpin, hpx⟩
    unfold get_largest_cc_frame
    rw [if_pos (by omega)]
  · intro hex
    obtain ⟨pw, hpwf⟩ := hex
    have hpl0 : labelAt L pw ≠ 0 := fun hz => hpwf.2 ((h0 pw hpwf.1).mpr hz)
    have hnb2 : 2 ≤ L.nb := by
      have := hlt pw hpwf.1
      omega
    have htaillen : ((((List.range L.nb).map (labelSize f L))).drop 1).length =
        L.nb - 1 := by simp
    have htailne : (((List.range L.nb).map (labelSize f L))).drop 1 ≠ [] := by
      intro he
      rw [he] at htaillen
      simp at htaillen
      omega
    have hbestlt :
        npArgmaxNat ((((List.range L.nb).map (labelSize f L))).drop 1) + 1 <
          L.nb := by
      have := npArgmaxNat_lt _ htailne
      rw [htaillen] at this
      omega
    obtain ⟨p0, hp0in, hp0l⟩ :=
      hused (npArgmaxNat ((((List.range L.nb).map (labelSize f L))).drop 1) + 1)
        (by omega) hbestlt
    have hp0f : fgF f p0 := by
      refine ⟨hp0in, fun hz => ?_⟩
      have := (h0 p0 hp0in).mp hz
      omega
    refine ⟨(List.range f.length).map (fun r =>
        (List.range (f.getD r []).length).map (fun c =>
          labelAt L (r, c) ==
            npArgmaxNat ((((List.range L.nb).map (labelSize f L))).drop 1) + 1)),
      ?_, p0, hp0f, ?_, ?_⟩
    · unfold get_largest_cc_frame
      rw [if_neg (by omega)]
    · intro q
      rw [largest_mask_at]
      constructor
      · intro hq
        have hqf : fgF f q := by
          refine ⟨hq.1, fun hz => ?_⟩
          have := (h0 q hq.1).mp hz
          omega
        refine (hconn p0 q hp0f hqf).mp ?_
        rw [hp0l, hq.2]
      · intro hc
        rcases connectedF_imp f p0 q hc with rfl | hqf
        · exact ⟨hp0in, hp0l⟩
        · have hlab := (hconn p0 q hp0f hqf).mpr hc
          exact ⟨hqf.1, by omega⟩
    · intro p hpf
      have hl1 : 1 ≤ labelAt L p := by
        have : labelAt L p ≠ 0 := fun hz => hpf.2 ((h0 p hpf.1).mpr hz)
        omega
      have hllt : labelAt L p < L.nb := hlt p hpf.1
      have hmax := npArgmaxNat_max ((((List.range L.nb).map (labelSize f L))).drop 1)
        (labelAt L p - 1) (by rw [htaillen]; omega)
      rw [szs_tail_getD f L _ (by omega),
        szs_tail_getD f L _ (by rw [← htaillen]; exact npArgmaxNat_lt _ htailne)] at hmax
      have e1 : 1 + (labelAt L p - 1) = labelAt L p := by omega
      rw [e1] at hmax
      rw [hp0l]
      have e2 : 1 + npArgmaxNat ((((List.range L.nb).map (labelSize f L))).drop 1) =
          npArgmaxNat ((((List.range L.nb).map (labelSize f L))).drop 1) + 1 := by
        omega
      rw [e2] at hmax
      exact hmax

/-- The single-foreground-pixel frame and its cv2 labelling, for the
witness. -/
def ccOneFrame : List (List ℕ) := [[1]]

/-- Labelling of `ccOneFrame`: background plus one component. -/
def ccOneLabeling : CCLabeling := { labels := [[1]], nb := 2 }

theorem ccOne_inBounds (p : ℕ × ℕ) (h : inBoundsF ccOneFrame p) : p = (0, 0) := by
  obtain ⟨a, b⟩ := p
  obtain ⟨h1, h2⟩ := h
  simp only [ccOneFrame, List.length_cons, List.length_nil] at h1
  have ha : a = 0 := by omega
  subst ha
  simp only [ccOneFrame, List.getD_cons_zero, List.length_cons,
    List.length_nil] at h2
  have hb : b = 0 := by omega
  subst hb
  rfl

theorem ccOne_spec : ccSpec ccOneFrame ccOneLabeling := by
  refine ⟨?_, ?_, ?_, ?_, ?_, ?_⟩
  · intro p hp
    rw [ccOne_inBounds p hp]
    constructor
    · intro h
      exact absurd h (by decide)
    · intro h
      exact absurd h (by decide)
  · intro p hp
    obtain ⟨a, b⟩ := p
    by_cases ha : a = 0
    · subst ha
      have hb : 1 ≤ b := by
        by_contra hb1
        push_neg at hb1
        exact hp ⟨Nat.one_pos, hb1⟩
      show ((ccOneLabeling.labels.getD 0 []).getD b 0) = 0
      exact List.getD_eq_default _ _ hb
    · show ((ccOneLabeling.labels.getD a []).getD b 0) = 0
      have hrow : ccOneLabeling.labels.getD a [] = [] :=
        List.getD_eq_default _ _ (show (1 : ℕ) ≤ a by omega)
      rw [hrow]
      rfl
  · decide
  · intro p hp
    rw [ccOne_inBounds p hp]
    decide
  · intro k hk1 hk2
    have hnb : ccOneLabeling.nb = 2 := rfl
    rw [hnb] at hk2
    have hk : k = 1 := by omega
    subst hk
    exact ⟨(0, 0), ⟨by decide, by decide⟩, by decide⟩
  · intro p q hp hq
    rw [ccOne_inBounds p hp.1, ccOne_inBounds q hq.1]
    exact iff_of_true rfl Relation.ReflTransGen.refl

/-- C10 witness: the success branch of the theorem on a concrete one-pixel
foreground frame with its concrete cv2 labelling. -/
theorem get_largest_cc_spec_witness :
    ∃ mask, get_largest_cc_frame ccOneFrame ccOneLabeling = some mask ∧
      ∃ p0, fgF ccOneFrame p0 ∧
        (∀ q, ((mask.getD q.1 []).getD q.2 false = true) ↔
          connectedF ccOneFrame p0 q) ∧
        (∀ p, fgF ccOneFrame p →
          labelSize ccOneFrame ccOneLabeling (labelAt ccOneLabeling p) ≤
            labelSize ccOneFrame ccOneLabeling (labelAt ccOneLabeling p0)) :=
  (get_largest_cc_spec ccOneFrame ccOneLabeling ccOne_spec).2
    ⟨(0, 0), ⟨by decide, by decide⟩, by decide⟩

end Moseq
